import Mathlib

/-
Verification development for the typescript-runtime generator
(src/src/lib/generator.ts).  The generator emits, for each named type, a
TypeScript module binding {name, schema, create, validate}.  We shallowly
embed the runtime semantics of that generated code: JavaScript values,
the validator produced by generateTypeValidator, the sanitizer produced
by generateTypeSanitizer, and the create/validate wrappers produced by
generate.  Recursion through named-type aliases is unbounded in the
source, so every semantic function takes a fuel argument that strictly
decreases at every recursive call; a result of none models a
non-ValidationError fault (stack exhaustion, an unresolved binding, a
TypeError, or a reference to a variable that is not in scope), which the
generated code never catches.  some (Except.error m) models a thrown
ValidationError with message m; some (Except.ok _) models normal return.
-/

namespace TsRt

/-- Literal values, per the "literal" variant: boolean | number | string.
Numbers produced by the repository's parser are integer literals, so we
model the number case with Int. -/
inductive Lit where
  | b (x : Bool)
  | n (x : Int)
  | s (x : String)
deriving DecidableEq, Repr

/-- Runtime JavaScript values that the generated validator/sanitizer can
receive: null, undefined, booleans, (integer) numbers, strings, arrays
and plain objects (ordered field lists, first binding wins on lookup). -/
inductive Value where
  | null
  | undefined
  | bool (b : Bool)
  | num (n : Int)
  | str (s : String)
  | arr (items : List Value)
  | obj (fields : List (String × Value))

mutual

/-- Decidable equality on values (hand-written: the deriving handler
does not support this nested inductive). -/
def decEqV : (x y : Value) → Decidable (x = y)
  | .null, .null => isTrue rfl
  | .undefined, .undefined => isTrue rfl
  | .bool a, .bool b =>
      if h : a = b then isTrue (by rw [h])
      else isFalse (fun hc => by cases hc; exact h rfl)
  | .num a, .num b =>
      if h : a = b then isTrue (by rw [h])
      else isFalse (fun hc => by cases hc; exact h rfl)
  | .str a, .str b =>
      if h : a = b then isTrue (by rw [h])
      else isFalse (fun hc => by cases hc; exact h rfl)
  | .arr xs, .arr ys =>
      match decEqVL xs ys with
      | isTrue h => isTrue (by rw [h])
      | isFalse h => isFalse (fun hc => by cases hc; exact h rfl)
  | .obj xs, .obj ys =>
      match decEqVF xs ys with
      | isTrue h => isTrue (by rw [h])
      | isFalse h => isFalse (fun hc => by cases hc; exact h rfl)
  | .null, .undefined => isFalse (fun h => Value.noConfusion h)
  | .null, .bool _ => isFalse (fun h => Value.noConfusion h)
  | .null, .num _ => isFalse (fun h => Value.noConfusion h)
  | .null, .str _ => isFalse (fun h => Value.noConfusion h)
  | .null, .arr _ => isFalse (fun h => Value.noConfusion h)
  | .null, .obj _ => isFalse (fun h => Value.noConfusion h)
  | .undefined, .null => isFalse (fun h => Value.noConfusion h)
  | .undefined, .bool _ => isFalse (fun h => Value.noConfusion h)
  | .undefined, .num _ => isFalse (fun h => Value.noConfusion h)
  | .undefined, .str _ => isFalse (fun h => Value.noConfusion h)
  | .undefined, .arr _ => isFalse (fun h => Value.noConfusion h)
  | .undefined, .obj _ => isFalse (fun h => Value.noConfusion h)
  | .bool _, .null => isFalse (fun h => Value.noConfusion h)
  | .bool _, .undefined => isFalse (fun h => Value.noConfusion h)
  | .bool _, .num _ => isFalse (fun h => Value.noConfusion h)
  | .bool _, .str _ => isFalse (fun h => Value.noConfusion h)
  | .bool _, .arr _ => isFalse (fun h => Value.noConfusion h)
  | .bool _, .obj _ => isFalse (fun h => Value.noConfusion h)
  | .num _, .null => isFalse (fun h => Value.noConfusion h)
  | .num _, .undefined => isFalse (fun h => Value.noConfusion h)
  | .num _, .bool _ => isFalse (fun h => Value.noConfusion h)
  | .num _, .str _ => isFalse (fun h => Value.noConfusion h)
  | .num _, .arr _ => isFalse (fun h => Value.noConfusion h)
  | .num _, .obj _ => isFalse (fun h => Value.noConfusion h)
  | .str _, .null => isFalse (fun h => Value.noConfusion h)
  | .str _, .undefined => isFalse (fun h => Value.noConfusion h)
  | .str _, .bool _ => isFalse (fun h => Value.noConfusion h)
  | .str _, .num _ => isFalse (fun h => Value.noConfusion h)
  | .str _, .arr _ => isFalse (fun h => Value.noConfusion h)
  | .str _, .obj _ => isFalse (fun h => Value.noConfusion h)
  | .arr _, .null => isFalse (fun h => Value.noConfusion h)
  | .arr _, .undefined => isFalse (fun h => Value.noConfusion h)
  | .arr _, .bool _ => isFalse (fun h => Value.noConfusion h)
  | .arr _, .num _ => isFalse (fun h => Value.noConfusion h)
  | .arr _, .str _ => isFalse (fun h => Value.noConfusion h)
  | .arr _, .obj _ => isFalse (fun h => Value.noConfusion h)
  | .obj _, .null => isFalse (fun h => Value.noConfusion h)
  | .obj _, .undefined => isFalse (fun h => Value.noConfusion h)
  | .obj _, .bool _ => isFalse (fun h => Value.noConfusion h)
  | .obj _, .num _ => isFalse (fun h => Value.noConfusion h)
  | .obj _, .str _ => isFalse (fun h => Value.noConfusion h)
  | .obj _, .arr _ => isFalse (fun h => Value.noConfusion h)
termination_by structural x => x

/-- Decidable equality on value lists. -/
def decEqVL : (xs ys : List Value) → Decidable (xs = ys)
  | [], [] => isTrue rfl
  | [], _ :: _ => isFalse (fun h => List.noConfusion h)
  | _ :: _, [] => isFalse (fun h => List.noConfusion h)
  | x :: xs, y :: ys =>
      match decEqV x y with
      | isFalse h => isFalse (fun hc => by cases hc; exact h rfl)
      | isTrue h1 =>
          match decEqVL xs ys with
          | isTrue h2 => isTrue (by rw [h1, h2])
          | isFalse h => isFalse (fun hc => by cases hc; exact h rfl)
termination_by structural xs => xs

/-- Decidable equality on field lists. -/
def decEqVF : (xs ys : List (String × Value)) → Decidable (xs = ys)
  | [], [] => isTrue rfl
  | [], _ :: _ => isFalse (fun h => List.noConfusion h)
  | _ :: _, [] => isFalse (fun h => List.noConfusion h)
  | (k1, x) :: xs, (k2, y) :: ys =>
      if hk : k1 = k2 then
        match decEqV x y with
        | isFalse h => isFalse (fun hc => by cases hc; exact h rfl)
        | isTrue h1 =>
            match decEqVF xs ys with
            | isTrue h2 => isTrue (by rw [hk, h1, h2])
            | isFalse h => isFalse (fun hc => by cases hc; exact h rfl)
      else isFalse (fun hc => by cases hc; exact hk rfl)
termination_by structural xs => xs

end

instance : DecidableEq Value := decEqV

instance {ε α : Type} [DecidableEq ε] [DecidableEq α] : DecidableEq (Except ε α) :=
  fun x y =>
    match x, y with
    | .ok a, .ok b =>
        if h : a = b then isTrue (by rw [h])
        else isFalse (fun hc => by cases hc; exact h rfl)
    | .error a, .error b =>
        if h : a = b then isTrue (by rw [h])
        else isFalse (fun hc => by cases hc; exact h rfl)
    | .ok _, .error _ => isFalse (fun h => Except.noConfusion h)
    | .error _, .ok _ => isFalse (fun h => Except.noConfusion h)

/-- The Type model as consumed by generator.ts (its switch statements
handle exactly these kinds: alias, any, array, boolean, literal, null,
number, object, string, undefined, union).  An object property
(name, type, required) embeds ObjectProperty = {type, required}; the
Record of properties becomes an ordered association list. -/
inductive Ty where
  | alias (name : String)
  | any
  | array (type : Ty)
  | boolean
  | literal (value : Lit)
  | null
  | number
  | object (properties : List (String × Ty × Bool))
  | string
  | undefined
  | union (types : List Ty)

/-- The kinds of the Type union as declared in the repository's types.ts
(src/unnamed/part_000, lines 1-35), transcribed in declaration order.
Note that this list has no "array" entry. -/
def typesTsKinds : List String :=
  ["alias", "any", "boolean", "literal", "null", "number", "object",
   "string", "undefined", "union"]

/-- The kinds handled by the switch statements of generator.ts
(generateSchema / generateTypeDeclaration / generateTypeValidator /
generateTypeSanitizer all match exactly these eleven cases). -/
def generatorKinds : List String :=
  ["alias", "any", "array", "boolean", "literal", "null", "number",
   "object", "string", "undefined", "union"]

/-- The kind tag of an embedded Type value (mirrors the `kind` field). -/
def tyKind : Ty → String
  | .alias _ => "alias"
  | .any => "any"
  | .array _ => "array"
  | .boolean => "boolean"
  | .literal _ => "literal"
  | .null => "null"
  | .number => "number"
  | .object _ => "object"
  | .string => "string"
  | .undefined => "undefined"
  | .union _ => "union"

/-- An environment of named types, as in generate's
Record<string, Type> argument (Object.entries order). -/
abbrev Env := List (String × Ty)

/-- Resolution of a named type reference (the generated module binds one
frozen const per name; an alias mentions that const by name). -/
def lookupEnv (env : Env) (n : String) : Option Ty :=
  match env.find? (fun p => p.1 == n) with
  | some p => some p.2
  | none => none

/-- Dotted diagnostic path, as in path.join(".") of the generated
fail(...) messages. -/
def dotted (path : List String) : String := String.intercalate "." path

/-- Escape of one character inside a JSON string literal, as
JSON.stringify performs it for the characters we model. -/
def escapeJsonChar (c : Char) : String :=
  if c = '"' then "\\\""
  else if c = '\\' then "\\\\"
  else if c = '\n' then "\\n"
  else if c = '\t' then "\\t"
  else if c = '\r' then "\\r"
  else String.mk [c]

/-- Escape of a whole string body for JSON output. -/
def escapeJson (s : String) : String :=
  s.data.foldl (fun acc c => acc ++ escapeJsonChar c) ""

/-- A JSON string literal with surrounding quotes. -/
def jsonQuote (s : String) : String := "\"" ++ escapeJson s ++ "\""

/-- JSON.stringify of a literal constant, as interpolated into the
generated "must equal" message and comparison. -/
def litJson : Lit → String
  | .b true => "true"
  | .b false => "false"
  | .n x => toString x
  | .s x => jsonQuote x

/-- Indentation produced by JSON.stringify(value, null, 2) at depth d. -/
def jsonInd (d : Nat) : String := String.mk (List.replicate (2 * d) ' ')

mutual

/-- JSON.stringify(value, null, 2): none for undefined (JSON.stringify
returns the undefined value there), otherwise the pretty-printed text at
depth d. -/
def jsonStrV : Value → Nat → Option String
  | .undefined, _ => none
  | .null, _ => some "null"
  | .bool b, _ => some (cond b "true" "false")
  | .num x, _ => some (toString x)
  | .str s, _ => some (jsonQuote s)
  | .arr items, d =>
      match items with
      | [] => some "[]"
      | _ =>
          some ("[\n" ++ String.intercalate ",\n" (jsonStrItems items (d + 1))
            ++ "\n" ++ jsonInd d ++ "]")
  | .obj fields, d =>
      match jsonStrFields fields (d + 1) with
      | [] => some "{}"
      | ls =>
          some ("\x7b\n" ++ String.intercalate ",\n" ls
            ++ "\n" ++ jsonInd d ++ "\x7d")
termination_by structural v => v

/-- Rendered lines for array elements (undefined elements print as
null, as JSON.stringify does inside arrays). -/
def jsonStrItems : List Value → Nat → List String
  | [], _ => []
  | x :: xs, d =>
      (jsonInd d ++ (match jsonStrV x d with
        | some s => s
        | none => "null")) :: jsonStrItems xs d
termination_by structural l => l

/-- Rendered lines for object fields (fields whose value is undefined
are omitted, as JSON.stringify does). -/
def jsonStrFields : List (String × Value) → Nat → List String
  | [], _ => []
  | (k, x) :: xs, d =>
      match jsonStrV x d with
      | none => jsonStrFields xs d
      | some s => (jsonInd d ++ jsonQuote k ++ ": " ++ s) :: jsonStrFields xs d
termination_by structural l => l

end

/-- The debug rendering used by the generated fail(message, value):
JSON.stringify(value, null, 2), string-coerced when that yields the
undefined value. -/
def stringifyDebug (v : Value) : String :=
  match jsonStrV v 0 with
  | some s => s
  | none => "undefined"

/-- The full ValidationError message built by fail(message, value):
message + ":\n" + debug rendering of the offending value. -/
def failMsg (msg : String) (v : Value) : String :=
  msg ++ ":\n" ++ stringifyDebug v

/-- JavaScript typeof. -/
def jsTypeof : Value → String
  | .null => "object"
  | .undefined => "undefined"
  | .bool _ => "boolean"
  | .num _ => "number"
  | .str _ => "string"
  | .arr _ => "object"
  | .obj _ => "object"

/-- The object-validator guard: typeof(v) === 'object' && v !== null. -/
def jsIsObject (v : Value) : Bool :=
  jsTypeof v == "object" && v != Value.null

/-- Canonical array-index reading of a property name, as JavaScript
treats "0", "1", ... on arrays and strings. -/
def natKey? (s : String) : Option Nat :=
  match s.toNat? with
  | some i => if toString i == s then some i else none
  | none => none

/-- JavaScript property access v[name] on values where access does not
throw: objects (first binding, else undefined), arrays (canonical index
or length), strings (index or length); property access on other
primitives yields undefined.  Access on null/undefined throws and is
modelled separately by jsGetSan. -/
def jsGetD : Value → String → Value
  | .obj fields, nm =>
      match fields.find? (fun p => p.1 == nm) with
      | some p => p.2
      | none => .undefined
  | .arr items, nm =>
      match natKey? nm with
      | some i => items.getD i .undefined
      | none => if nm == "length" then .num items.length else .undefined
  | .str s, nm =>
      match natKey? nm with
      | some i =>
          match s.data.get? i with
          | some c => .str (String.mk [c])
          | none => .undefined
      | none => if nm == "length" then .num s.length else .undefined
  | _, _ => .undefined

/-- Property access as performed by the object sanitizer, which may
receive any value: access on null or undefined throws a TypeError
(a fault, none); otherwise it is jsGetD. -/
def jsGetSan : Value → String → Option Value
  | .null, _ => none
  | .undefined, _ => none
  | .bool b, nm => some (jsGetD (.bool b) nm)
  | .num x, nm => some (jsGetD (.num x) nm)
  | .str s, nm => some (jsGetD (.str s) nm)
  | .arr items, nm => some (jsGetD (.arr items) nm)
  | .obj fields, nm => some (jsGetD (.obj fields) nm)

/-- Object.keys of a value that passed the object guard: field names in
order for objects, index strings for arrays. -/
def jsKeys : Value → List String
  | .obj fields => fields.map (fun p => p.1)
  | .arr items => (List.range items.length).map (fun i => toString i)
  | _ => []

/-- Strict equality test value !== literal used by the literal
validator. -/
def litMatches : Lit → Value → Bool
  | .b x, .bool y => x == y
  | .n x, .num y => x == y
  | .s x, .str y => x == y
  | _, _ => false

/-- First input key outside the allowed set, as found by the generated
for-loop over Object.keys when allowAdditionalProperties is false. -/
def firstDisallowed (allowed : List String) : List String → Option String
  | [] => none
  | k :: ks => if allowed.contains k then firstDisallowed allowed ks else some k

/-- Result of running a generated validator body: none is a
non-ValidationError fault, some (Except.error m) a thrown
ValidationError, some (Except.ok _) normal completion. -/
abbrev VRes := Option (Except String Unit)

/-- Result of running a generated sanitizer expression. -/
abbrev SRes := Option (Except String Value)

/-- Test for the undefined value (the accessor !== undefined guards in
the generated optional-property code). -/
def isUndef : Value → Bool
  | .undefined => true
  | _ => false

/-- The element loop of the generated array validator: checks items in
order; the first abnormal outcome (error or fault) stops the loop. -/
def iterItems (f : Value → VRes) : List Value → VRes
  | [] => some (.ok ())
  | x :: xs =>
      match f x with
      | some (.ok _) => iterItems f xs
      | r => r

/-- The property-check sequence of the generated object validator:
required properties are checked unconditionally, optional properties
only when the accessed value is not undefined. -/
def iterProps (get : String → Value) (check : String → Ty → Value → VRes) :
    List (String × Ty × Bool) → VRes
  | [] => some (.ok ())
  | (nm, t, req) :: rest =>
      match (if req || !(isUndef (get nm)) then check nm t (get nm)
             else some (.ok ())) with
      | some (.ok _) => iterProps get check rest
      | r => r

/-- The union validator's try/catch chain: members tried in order, a
success breaks out, a ValidationError is remembered in the error
variable, anything else propagates; after the last member the
remembered error is thrown (throwing the initial null, a fault, when
there are no members). -/
def iterUnion (trial : Nat → Ty → VRes) : List Ty → Nat → Option String → VRes
  | [], _, lastE =>
      match lastE with
      | some e => some (.error e)
      | none => none
  | t :: rest, i, _ =>
      match trial i t with
      | some (.ok _) => some (.ok ())
      | some (.error e) => iterUnion trial rest (i + 1) (some e)
      | none => none

/-- The check procedure generated by generateTypeValidator(type, value,
path), run against value v in a scope where allowAdditionalProperties
is bound to aap (some b) or not bound at all (none: reading it throws a
ReferenceError, a fault).  The fuel bounds the call depth; fuel
exhaustion is a fault, as a stack overflow would be. -/
def validateT (env : Env) : Nat → Ty → List String → Option Bool → Value → VRes
  | 0, _, _, _, _ => none
  | fuel + 1, t, path, aap, v =>
      match t with
      | .alias n =>
          match aap with
          | none => none
          | some b =>
              match lookupEnv env n with
              | none => none
              | some t2 => validateT env fuel t2 [n] (some b) v
      | .any => some (.ok ())
      | .array elemT =>
          match v with
          | .arr items =>
              iterItems
                (fun x => validateT env fuel elemT (path ++ ["__item__"]) aap x)
                items
          | _ => some (.error (failMsg (dotted path ++ " is not an array") v))
      | .boolean =>
          match v with
          | .bool _ => some (.ok ())
          | _ => some (.error (failMsg (dotted path ++ " is not a boolean") v))
      | .literal l =>
          if litMatches l v then some (.ok ())
          else
            some (.error
              (failMsg (dotted path ++ " must equal " ++ litJson l) v))
      | .null =>
          match v with
          | .null => some (.ok ())
          | _ => some (.error (failMsg (dotted path ++ " is not null") v))
      | .number =>
          match v with
          | .num _ => some (.ok ())
          | _ => some (.error (failMsg (dotted path ++ " is not a number") v))
      | .object props =>
          if jsIsObject v then
            match aap with
            | none => none
            | some b =>
                if b then
                  iterProps (jsGetD v)
                    (fun nm subT pv =>
                      validateT env fuel subT (path ++ [nm]) (some b) pv)
                    props
                else
                  match firstDisallowed (props.map (fun p => p.1)) (jsKeys v) with
                  | some k =>
                      some (.error
                        (failMsg (dotted path ++ " does not allow key " ++ k) v))
                  | none =>
                      iterProps (jsGetD v)
                        (fun nm subT pv =>
                          validateT env fuel subT (path ++ [nm]) (some b) pv)
                        props
          else some (.error (failMsg (dotted path ++ " is not an object") v))
      | .string =>
          match v with
          | .str _ => some (.ok ())
          | _ => some (.error (failMsg (dotted path ++ " is not a string") v))
      | .undefined =>
          match v with
          | .undefined => some (.ok ())
          | _ =>
              some (.error (failMsg (dotted path ++ " is not undefined") v))
      | .union ts =>
          iterUnion
            (fun i subT => validateT env fuel subT (path ++ [toString i]) aap v)
            ts 0 none
termination_by structural fuel => fuel

/-- The element mapping of the generated array sanitizer
((value as Array).map(...)): the first abnormal element outcome
propagates. -/
def iterSanItems (f : Value → SRes) : List Value → Option (Except String (List Value))
  | [] => some (.ok [])
  | x :: xs =>
      match f x with
      | none => none
      | some (.error m) => some (.error m)
      | some (.ok y) =>
          match iterSanItems f xs with
          | none => none
          | some (.error m) => some (.error m)
          | some (.ok ys) => some (.ok (y :: ys))

/-- The field assignments of the generated object sanitizer: required
properties assigned unconditionally, optional ones only when the
accessed value is not undefined; assignments run in declared order and
the first abnormal outcome propagates. -/
def iterSanProps (get : String → Option Value) (san : String → Ty → Value → SRes) :
    List (String × Ty × Bool) → Option (Except String (List (String × Value)))
  | [] => some (.ok [])
  | (nm, t, req) :: rest =>
      match get nm with
      | none => none
      | some pv =>
          if req || !(isUndef pv) then
            match san nm t pv with
            | none => none
            | some (.error m) => some (.error m)
            | some (.ok sv) =>
                match iterSanProps get san rest with
                | none => none
                | some (.error m) => some (.error m)
                | some (.ok fs) => some (.ok ((nm, sv) :: fs))
          else iterSanProps get san rest

/-- The union sanitizer's member loop: each member's embedded validator
is tried, and on success the member's sanitizer expression is returned;
both run inside the try, so a ValidationError from either moves on to
the next member; falling off the end of the arrow-function body returns
the undefined value. -/
def iterSanUnion (trial : Nat → Ty → VRes) (san : Nat → Ty → SRes) :
    List Ty → Nat → SRes
  | [], _ => some (.ok .undefined)
  | t :: rest, i =>
      match trial i t with
      | none => none
      | some (.error _) => iterSanUnion trial san rest (i + 1)
      | some (.ok _) =>
          match san i t with
          | none => none
          | some (.error _) => iterSanUnion trial san rest (i + 1)
          | some (.ok sv) => some (.ok sv)

/-- The reconstruction expression generated by
generateTypeSanitizer(type, value, path), evaluated on value v.  It
runs in the body of create, where allowAdditionalProperties is not in
scope, so the validator code embedded in union members runs with aap =
none; an alias delegates to the target's create (validate with
allowAdditionalProperties true, then sanitize). -/
def sanitizeT (env : Env) : Nat → Ty → List String → Value → SRes
  | 0, _, _, _ => none
  | fuel + 1, t, path, v =>
      match t with
      | .alias n =>
          match lookupEnv env n with
          | none => none
          | some t2 =>
              match validateT env fuel t2 [n] (some true) v with
              | none => none
              | some (.error m) => some (.error m)
              | some (.ok _) => sanitizeT env fuel t2 [n] v
      | .any => some (.ok v)
      | .array elemT =>
          match v with
          | .arr items =>
              match iterSanItems
                  (fun x => sanitizeT env fuel elemT (path ++ ["__item__"]) x)
                  items with
              | none => none
              | some (.error m) => some (.error m)
              | some (.ok ys) => some (.ok (.arr ys))
          | _ => none
      | .boolean => some (.ok v)
      | .literal _ => some (.ok v)
      | .null => some (.ok v)
      | .number => some (.ok v)
      | .object props =>
          match iterSanProps (jsGetSan v)
              (fun nm subT pv => sanitizeT env fuel subT (path ++ [nm]) pv)
              props with
          | none => none
          | some (.error m) => some (.error m)
          | some (.ok fields) => some (.ok (.obj fields))
      | .string => some (.ok v)
      | .undefined => some (.ok v)
      | .union ts =>
          iterSanUnion
            (fun i subT => validateT env fuel subT (path ++ [toString i]) none v)
            (fun i subT => sanitizeT env fuel subT (path ++ [toString i]) v)
            ts 0
termination_by structural fuel => fuel

/-- The mutable errorCatcher sink: {error: string}. -/
structure ErrorCatcher where
  error : String
deriving DecidableEq, Repr

/-- ValidateOptions; an absent allowAdditionalProperties destructures
to undefined, which every use treats as false, so it is modelled as
Bool. -/
structure VOptions where
  errorCatcher : Option ErrorCatcher
  allowAdditionalProperties : Bool
deriving DecidableEq, Repr

/-- The options of a validate call with no options argument. -/
def noOptions : VOptions := ⟨none, false⟩

/-- The generated validate method: runs the check in a try block; true
on completion; a ValidationError is written into the errorCatcher (and
false returned) when one was supplied, and re-raised otherwise; any
other fault propagates.  The result pairs the returned boolean with
the errorCatcher's final state. -/
def topValidate (env : Env) (fuel : Nat) (name : String) (t : Ty) (v : Value)
    (opts : VOptions) : Option (Except String (Bool × Option ErrorCatcher)) :=
  match validateT env fuel t [name] (some opts.allowAdditionalProperties) v with
  | none => none
  | some (.ok _) => some (.ok (true, opts.errorCatcher))
  | some (.error m) =>
      match opts.errorCatcher with
      | some _ => some (.ok (false, some ⟨m⟩))
      | none => some (.error m)

/-- The generated create method: validate with allowAdditionalProperties
true (and no errorCatcher), throw a fresh empty ValidationError if that
returned false (dead code: without a catcher validate never returns
false), then evaluate the sanitizer. -/
def createT (env : Env) (fuel : Nat) (name : String) (t : Ty) (v : Value) : SRes :=
  match topValidate env fuel name t v ⟨none, true⟩ with
  | none => none
  | some (.error m) => some (.error m)
  | some (.ok (false, _)) => some (.error "")
  | some (.ok (true, _)) => sanitizeT env fuel t [name] v

/-
Concrete fixtures used by several claims below.
-/

/-- An object type with one required number property a. -/
def exObjTy : Ty := .object [("a", .number, true)]

/-- Environment binding the name T to exObjTy. -/
def exEnv1 : Env := [("T", exObjTy)]

/-- An input with the declared key a plus an undeclared key b. -/
def exV1 : Value := .obj [("a", .num 1), ("b", .num 2)]

/-- The union type union(boolean, number) of the spec's union-order
example. -/
def exUnionBN : Ty := .union [.boolean, .number]

/-- Environment binding the name B to exUnionBN. -/
def exEnvBN : Env := [("B", exUnionBN)]

/-- A union whose first member is an object type. -/
def exUnionObjNum : Ty := .union [.object [], .number]

/-- Environment binding the name U to exUnionObjNum. -/
def exEnvUO : Env := [("U", exUnionObjNum)]

/-- The stripping example's object type: a required, b optional. -/
def exStripTy : Ty := .object [("a", .number, true), ("b", .number, false)]

/-- Environment binding the name S to exStripTy. -/
def exEnvS : Env := [("S", exStripTy)]

/-- The stripping example's input {a:1, b:2, c:3}. -/
def exVStrip : Value := .obj [("a", .num 1), ("b", .num 2), ("c", .num 3)]

/-
General lemmas about the loop combinators.
-/

/-- The array element loop succeeds exactly when every element check
succeeds; each element is checked by the same independent procedure. -/
theorem iterItems_ok_iff (f : Value → VRes) (xs : List Value) :
    iterItems f xs = some (.ok ()) ↔ ∀ x ∈ xs, f x = some (.ok ()) := by
  induction xs with
  | nil => simp [iterItems]
  | cons x xs ih =>
      simp only [iterItems]
      cases hfx : f x with
      | none =>
          simp only [List.mem_cons]
          constructor
          · intro h; cases h
          · intro h; rw [h x (Or.inl rfl)] at hfx; cases hfx
      | some r =>
          cases r with
          | ok u =>
              cases u
              simp only [List.mem_cons, ih]
              constructor
              · intro h y hy
                cases hy with
                | inl h1 => rw [h1]; exact hfx
                | inr h2 => exact h y h2
              · intro h y hy; exact h y (Or.inr hy)
          | error m =>
              simp only [List.mem_cons]
              constructor
              · intro h; cases h
              · intro h; rw [h x (Or.inl rfl)] at hfx; cases hfx

/-
Claim theorems C6 and C10 about the generated validate wrapper.
-/

/-- Claim C6: the top-level validate returns true on success; on a
ValidationFailure it writes the failure message into the supplied
errorCatcher and returns false without raising, or re-raises the
ValidationFailure when no errorCatcher was supplied; any fault that is
not a ValidationFailure (modelled by none) propagates out of validate
uncaught. -/
theorem c6_validate_wrapper (env : Env) (fuel : Nat) (name : String) (t : Ty)
    (v : Value) (opts : VOptions) :
    (validateT env fuel t [name] (some opts.allowAdditionalProperties) v = some (.ok ()) →
      topValidate env fuel name t v opts = some (.ok (true, opts.errorCatcher))) ∧
    (∀ m, validateT env fuel t [name] (some opts.allowAdditionalProperties) v = some (.error m) →
      (∀ c, opts.errorCatcher = some c →
        topValidate env fuel name t v opts = some (.ok (false, some ⟨m⟩))) ∧
      (opts.errorCatcher = none →
        topValidate env fuel name t v opts = some (.error m))) ∧
    (validateT env fuel t [name] (some opts.allowAdditionalProperties) v = none →
      topValidate env fuel name t v opts = none) := by
  refine ⟨?_, ?_, ?_⟩
  · intro h; simp [topValidate, h]
  · intro m h
    refine ⟨?_, ?_⟩
    · intro c hc; simp [topValidate, h, hc]
    · intro hc; simp [topValidate, h, hc]
  · intro h; simp [topValidate, h]

/-- Witness for C6: the failing union example with an errorCatcher
returns false and stores the last member's message. -/
theorem c6_validate_wrapper_witness :
    topValidate exEnvBN 10 "B" exUnionBN (.str "x") ⟨some ⟨""⟩, false⟩ =
      some (.ok (false, some ⟨"B.1 is not a number:\n\"x\""⟩)) :=
  ((c6_validate_wrapper exEnvBN 10 "B" exUnionBN (.str "x") ⟨some ⟨""⟩, false⟩).2.1
    "B.1 is not a number:\n\"x\"" (by decide)).1 ⟨""⟩ rfl

/-- Claim C10: when validate returns true, the errorCatcher is left
unchanged: its error field is written only on the failure path. -/
theorem c10_catcher_unchanged (env : Env) (fuel : Nat) (name : String) (t : Ty)
    (v : Value) (opts : VOptions) (c : Option ErrorCatcher) :
    topValidate env fuel name t v opts = some (.ok (true, c)) →
    c = opts.errorCatcher := by
  intro h
  unfold topValidate at h
  cases hv : validateT env fuel t [name] (some opts.allowAdditionalProperties) v with
  | none => rw [hv] at h; cases h
  | some r =>
      rw [hv] at h
      cases r with
      | ok u => cases u; simp at h; exact h.symm
      | error m =>
          cases hc : opts.errorCatcher with
          | none => rw [hc] at h; simp at h
          | some c0 => rw [hc] at h; simp at h

/-- Witness for C10: a successful validate call that was given an
errorCatcher hands the same catcher back untouched. -/
theorem c10_catcher_unchanged_witness :
    (some (⟨""⟩ : ErrorCatcher) : Option ErrorCatcher) =
      (⟨some ⟨""⟩, false⟩ : VOptions).errorCatcher :=
  c10_catcher_unchanged exEnvBN 10 "B" exUnionBN (.num 5) ⟨some ⟨""⟩, false⟩
    (some ⟨""⟩) (by decide)

/-- A successful union prefix short-circuits: the members after the
first success cannot change the outcome, whatever they are. -/
theorem iterUnion_append_ok (trial : Nat → Ty → VRes) (ts1 ts2 : List Ty)
    (i : Nat) (le1 le2 : Option String) :
    iterUnion trial ts1 i le1 = some (.ok ()) →
    iterUnion trial (ts1 ++ ts2) i le2 = some (.ok ()) := by
  induction ts1 generalizing i le1 le2 with
  | nil => intro h; cases le1 <;> simp [iterUnion] at h
  | cons t rest ih =>
      intro h
      simp only [iterUnion] at h
      simp only [List.cons_append, iterUnion]
      cases htr : trial i t with
      | none => rw [htr] at h; cases h
      | some r =>
          cases r with
          | ok u => rfl
          | error e =>
              rw [htr] at h
              exact ih (i + 1) (some e) (some e) h

/-- When every member fails, the union loop rethrows exactly the error
of the last member tried, forgetting all earlier messages. -/
theorem iterUnion_all_error (trial : Nat → Ty → VRes) (ts : List Ty) (M : Nat → String) :
    ∀ (i : Nat) (le : Option String),
      (∀ j, (h : j < ts.length) →
        trial (i + j) (ts.get ⟨j, h⟩) = some (.error (M (i + j)))) →
      ts ≠ [] →
      iterUnion trial ts i le = some (.error (M (i + ts.length - 1))) := by
  induction ts with
  | nil => intro i le _ hne; exact absurd rfl hne
  | cons t rest ih =>
      intro i le h _
      have h0 : trial i t = some (.error (M i)) := by
        have := h 0 (by simp)
        simpa using this
      simp only [iterUnion, h0]
      cases rest with
      | nil => simp [iterUnion]
      | cons t2 rest2 =>
          have hrest : ∀ j, (hj : j < (t2 :: rest2).length) →
              trial (i + 1 + j) ((t2 :: rest2).get ⟨j, hj⟩) =
                some (.error (M (i + 1 + j))) := by
            intro j hj
            have hj1 : j + 1 < (t :: t2 :: rest2).length := by
              simp at hj ⊢; omega
            have := h (j + 1) hj1
            have harith : i + (j + 1) = i + 1 + j := by omega
            rw [harith] at this
            simpa using this
          have := ih (i + 1) (some (M i)) hrest (by simp)
          have harith : i + 1 + (t2 :: rest2).length - 1 =
              i + (t :: t2 :: rest2).length - 1 := by simp; omega
          rw [harith] at this
          exact this

/-- Claim C2: union validation tries the members in declared order; the
first success ends the whole check (members after a successful prefix
are irrelevant); if every member fails, the union fails carrying only
the failure message of the last member tried; concretely, for
union(boolean, number) named B, validate(true) and validate(5) return
true and validate("x") fails with the number member's message. -/
theorem c2_union_order :
    (∀ (env : Env) (fuel : Nat) (ts1 ts2 : List Ty) (path : List String)
        (aap : Option Bool) (v : Value),
      validateT env (fuel + 1) (.union ts1) path aap v = some (.ok ()) →
      validateT env (fuel + 1) (.union (ts1 ++ ts2)) path aap v = some (.ok ())) ∧
    (∀ (env : Env) (fuel : Nat) (ts : List Ty) (path : List String)
        (aap : Option Bool) (v : Value) (M : Nat → String),
      (∀ j, (h : j < ts.length) →
        validateT env fuel (ts.get ⟨j, h⟩) (path ++ [toString j]) aap v =
          some (.error (M j))) →
      ts ≠ [] →
      validateT env (fuel + 1) (.union ts) path aap v =
        some (.error (M (ts.length - 1)))) ∧
    (topValidate exEnvBN 10 "B" exUnionBN (.bool true) noOptions =
        some (.ok (true, none)) ∧
      topValidate exEnvBN 10 "B" exUnionBN (.num 5) noOptions =
        some (.ok (true, none)) ∧
      topValidate exEnvBN 10 "B" exUnionBN (.str "x") noOptions =
        some (.error "B.1 is not a number:\n\"x\"")) := by
  refine ⟨?_, ?_, by decide, by decide, by decide⟩
  · intro env fuel ts1 ts2 path aap v h
    simp only [validateT] at h ⊢
    exact iterUnion_append_ok _ ts1 ts2 0 none none h
  · intro env fuel ts path aap v M h hne
    simp only [validateT]
    have := iterUnion_all_error
      (fun i subT => validateT env fuel subT (path ++ [toString i]) aap v)
      ts M 0 none (by intro j hj; simpa using h j hj) hne
    simpa using this

/-- Witness for C2: the short-circuit part applied to the concrete
union(boolean, number) at input true. -/
theorem c2_union_order_witness :
    validateT exEnvBN 10 (.union ([.boolean] ++ [.number])) ["B"] (some false)
      (.bool true) = some (.ok ()) :=
  c2_union_order.1 exEnvBN 9 [.boolean] [.number] ["B"] (some false) (.bool true)
    (by decide)

/-- Claim C3: generator.ts treats the closed kind set as including
array (types.ts's Type union, transcribed as typesTsKinds, lacks it);
for an array type, validation fails with "path is not an array" when
the input is not an array, and otherwise checks every element
independently against the element type at the wildcard-element path. -/
theorem c3_kinds_and_array :
    ("array" ∈ generatorKinds ∧ tyKind (.array .number) = "array" ∧
      "array" ∉ typesTsKinds) ∧
    (∀ (env : Env) (fuel : Nat) (elemT : Ty) (path : List String)
        (aap : Option Bool) (v : Value), (∀ items, v ≠ .arr items) →
      validateT env (fuel + 1) (.array elemT) path aap v =
        some (.error (failMsg (dotted path ++ " is not an array") v))) ∧
    (∀ (env : Env) (fuel : Nat) (elemT : Ty) (path : List String)
        (aap : Option Bool) (items : List Value),
      validateT env (fuel + 1) (.array elemT) path aap (.arr items) =
          some (.ok ()) ↔
        ∀ x ∈ items,
          validateT env fuel elemT (path ++ ["__item__"]) aap x = some (.ok ())) := by
  refine ⟨by decide, ?_, ?_⟩
  · intro env fuel elemT path aap v h
    cases v with
    | arr items => exact absurd rfl (h items)
    | null => simp [validateT]
    | undefined => simp [validateT]
    | bool b => simp [validateT]
    | num n => simp [validateT]
    | str s => simp [validateT]
    | obj fields => simp [validateT]
  · intro env fuel elemT path aap items
    simp only [validateT]
    exact iterItems_ok_iff _ items

/-- Witness for C3: a number input fails the array check with the
documented message. -/
theorem c3_kinds_and_array_witness :
    validateT [] 10 (.array .number) ["N"] (some false) (.num 3) =
      some (.error "N is not an array:\n3") :=
  c3_kinds_and_array.2.1 [] 9 .number ["N"] (some false) (.num 3)
    (fun _ h => Value.noConfusion h)

/-
Pointwise transfer lemmas for the loop combinators: when two bodies
agree on every settled outcome, the loops agree on settled outcomes.
-/

/-- Settled outcomes of the element loop transfer along pointwise
agreement of the element checks. -/
theorem iterItems_mono (f1 f2 : Value → VRes)
    (H : ∀ x r, f1 x = some r → f2 x = some r) :
    ∀ (xs : List Value) r, iterItems f1 xs = some r → iterItems f2 xs = some r := by
  intro xs
  induction xs with
  | nil => intro r h; simpa [iterItems] using h
  | cons x xs ih =>
      intro r h
      simp only [iterItems] at h ⊢
      cases hfx : f1 x with
      | none => rw [hfx] at h; cases h
      | some s =>
          rw [hfx] at h
          rw [H x s hfx]
          cases s with
          | ok u => cases u; exact ih r h
          | error m => exact h

/-- Settled outcomes of the property loop transfer along pointwise
agreement of the property checks. -/
theorem iterProps_mono (get : String → Value) (c1 c2 : String → Ty → Value → VRes)
    (H : ∀ nm t pv r, c1 nm t pv = some r → c2 nm t pv = some r) :
    ∀ (props : List (String × Ty × Bool)) r,
      iterProps get c1 props = some r → iterProps get c2 props = some r := by
  intro props
  induction props with
  | nil => intro r h; simpa [iterProps] using h
  | cons p rest ih =>
      intro r h
      obtain ⟨nm, t, req⟩ := p
      simp only [iterProps] at h ⊢
      by_cases hg : (req || !(isUndef (get nm))) = true
      · rw [if_pos hg] at h ⊢
        cases hc : c1 nm t (get nm) with
        | none => rw [hc] at h; cases h
        | some s =>
            rw [hc] at h
            rw [H nm t (get nm) s hc]
            cases s with
            | ok u => cases u; exact ih r h
            | error m => exact h
      · rw [if_neg hg] at h ⊢
        exact ih r h

/-- Settled outcomes of the union loop transfer along pointwise
agreement of the member trials. -/
theorem iterUnion_mono (trial1 trial2 : Nat → Ty → VRes)
    (H : ∀ i t r, trial1 i t = some r → trial2 i t = some r) :
    ∀ (ts : List Ty) i le r,
      iterUnion trial1 ts i le = some r → iterUnion trial2 ts i le = some r := by
  intro ts
  induction ts with
  | nil => intro i le r h; exact h
  | cons t rest ih =>
      intro i le r h
      simp only [iterUnion] at h ⊢
      cases htr : trial1 i t with
      | none => rw [htr] at h; cases h
      | some s =>
          rw [htr] at h
          rw [H i t s htr]
          cases s with
          | ok u => exact h
          | error e => exact ih (i + 1) (some e) r h

/-- Settled outcomes of the sanitizer element loop transfer along
pointwise agreement of the element sanitizers. -/
theorem iterSanItems_mono (g1 g2 : Value → SRes)
    (H : ∀ x r, g1 x = some r → g2 x = some r) :
    ∀ (xs : List Value) r, iterSanItems g1 xs = some r → iterSanItems g2 xs = some r := by
  intro xs
  induction xs with
  | nil => intro r h; exact h
  | cons x xs ih =>
      intro r h
      simp only [iterSanItems] at h ⊢
      cases hgx : g1 x with
      | none => rw [hgx] at h; cases h
      | some s =>
          rw [hgx] at h
          rw [H x s hgx]
          cases s with
          | error m => exact h
          | ok y =>
              cases hrest : iterSanItems g1 xs with
              | none => rw [hrest] at h; cases h
              | some s2 =>
                  rw [hrest] at h
                  rw [ih s2 hrest]
                  exact h

/-- Settled outcomes of the sanitizer field loop transfer along
pointwise agreement of the property sanitizers. -/
theorem iterSanProps_mono (get : String → Option Value)
    (s1 s2 : String → Ty → Value → SRes)
    (H : ∀ nm t pv r, s1 nm t pv = some r → s2 nm t pv = some r) :
    ∀ (props : List (String × Ty × Bool)) r,
      iterSanProps get s1 props = some r → iterSanProps get s2 props = some r := by
  intro props
  induction props with
  | nil => intro r h; exact h
  | cons p rest ih =>
      intro r h
      obtain ⟨nm, t, req⟩ := p
      simp only [iterSanProps] at h ⊢
      cases hg : get nm with
      | none => simp only [hg] at h; cases h
      | some pv =>
          simp only [hg] at h ⊢
          by_cases hguard : (req || !(isUndef pv)) = true
          · rw [if_pos hguard] at h ⊢
            cases hs : s1 nm t pv with
            | none => rw [hs] at h; cases h
            | some s =>
                rw [hs] at h
                rw [H nm t pv s hs]
                cases s with
                | error m => exact h
                | ok sv =>
                    cases hrest : iterSanProps get s1 rest with
                    | none => rw [hrest] at h; cases h
                    | some s2 =>
                        rw [hrest] at h
                        rw [ih s2 hrest]
                        exact h
          · rw [if_neg hguard] at h ⊢
            exact ih r h

/-- Settled outcomes of the union sanitizer loop transfer along
pointwise agreement of trials and sanitizers. -/
theorem iterSanUnion_mono (t1 t2 : Nat → Ty → VRes) (s1 s2 : Nat → Ty → SRes)
    (Ht : ∀ i t r, t1 i t = some r → t2 i t = some r)
    (Hs : ∀ i t r, s1 i t = some r → s2 i t = some r) :
    ∀ (ts : List Ty) i r,
      iterSanUnion t1 s1 ts i = some r → iterSanUnion t2 s2 ts i = some r := by
  intro ts
  induction ts with
  | nil => intro i r h; exact h
  | cons t rest ih =>
      intro i r h
      simp only [iterSanUnion] at h ⊢
      cases htr : t1 i t with
      | none => rw [htr] at h; cases h
      | some s =>
          rw [htr] at h
          rw [Ht i t s htr]
          cases s with
          | error e => exact ih (i + 1) r h
          | ok u =>
              cases hs : s1 i t with
              | none => rw [hs] at h; cases h
              | some s2 =>
                  rw [hs] at h
                  rw [Hs i t s2 hs]
                  cases s2 with
                  | error m => exact ih (i + 1) r h
                  | ok sv => exact h

/-
Scope transfer: a validator run in a scope where
allowAdditionalProperties is unbound (aap = none) either faults or
behaves exactly as it would in any scope where the variable is bound,
because every settled outcome is reached without reading the variable.
-/

/-- A settled outcome under an unbound allowAdditionalProperties is the
same settled outcome under any bound value. -/
theorem aapNone_transfer (env : Env) :
    ∀ (fuel : Nat) (t : Ty) (path : List String) (v : Value) r (b : Bool),
      validateT env fuel t path none v = some r →
      validateT env fuel t path (some b) v = some r := by
  intro fuel
  induction fuel with
  | zero => intro t path v r b h; cases h
  | succ fuel ih =>
      intro t path v r b h
      cases t with
      | «alias» n => simp [validateT] at h
      | any => simpa [validateT] using h
      | array elemT =>
          cases v with
          | arr items =>
              simp only [validateT] at h ⊢
              exact iterItems_mono _ _ (fun x s hx => ih elemT _ x s b hx) items r h
          | null => simpa [validateT] using h
          | undefined => simpa [validateT] using h
          | bool x => simpa [validateT] using h
          | num x => simpa [validateT] using h
          | str x => simpa [validateT] using h
          | obj fs => simpa [validateT] using h
      | boolean => simpa [validateT] using h
      | literal l => simpa [validateT] using h
      | null => simpa [validateT] using h
      | number => simpa [validateT] using h
      | object props =>
          simp only [validateT] at h ⊢
          by_cases hio : jsIsObject v = true
          · rw [hio] at h; simp at h
          · rw [eq_false_of_ne_true hio] at h ⊢
            simpa using h
      | string => simpa [validateT] using h
      | undefined => simpa [validateT] using h
      | union ts =>
          simp only [validateT] at h ⊢
          exact iterUnion_mono _ _
            (fun i t s htr => ih t _ v s b htr) ts 0 none r h

/-
When a member's embedded validator succeeds in the union sanitizer's
scope (aap unbound), the member's sanitizer returns the input value
unchanged: such a member contains no reachable object or alias code,
and the remaining cases are identity.
-/

/-- Union sanitizer loop: given that every trial success makes the
member sanitizer return w, a successful trial chain returns w. -/
theorem iterSanUnion_of_ok (trial : Nat → Ty → VRes) (san : Nat → Ty → SRes)
    (w : Value) (H : ∀ i t, trial i t = some (.ok ()) → san i t = some (.ok w)) :
    ∀ (ts : List Ty) i le, iterUnion trial ts i le = some (.ok ()) →
      iterSanUnion trial san ts i = some (.ok w) := by
  intro ts
  induction ts with
  | nil => intro i le h; cases le <;> simp [iterUnion] at h
  | cons t rest ih =>
      intro i le h
      simp only [iterUnion] at h
      simp only [iterSanUnion]
      cases htr : trial i t with
      | none => rw [htr] at h; cases h
      | some s =>
          rw [htr] at h
          cases s with
          | ok u => cases u; rw [H i t htr]
          | error e => exact ih (i + 1) (some e) h

/-- Element loop: if every element's check succeeded and every
successful check makes the sanitizer the identity, the sanitized list
is the input list. -/
theorem iterSanItems_id (f : Value → VRes) (g : Value → SRes) :
    ∀ (xs : List Value),
      (∀ x ∈ xs, f x = some (.ok ()) → g x = some (.ok x)) →
      (∀ x ∈ xs, f x = some (.ok ())) →
      iterSanItems g xs = some (.ok xs) := by
  intro xs
  induction xs with
  | nil => intro _ _; rfl
  | cons x xs ih =>
      intro H hok
      simp only [iterSanItems]
      rw [H x (by simp) (hok x (by simp))]
      rw [ih (fun y hy => H y (by simp [hy])) (fun y hy => hok y (by simp [hy]))]

/-- A check that succeeds in a scope with allowAdditionalProperties
unbound makes the corresponding sanitizer the identity. -/
theorem sanNone_id (env : Env) :
    ∀ (fuel : Nat) (t : Ty) (path : List String) (v : Value),
      validateT env fuel t path none v = some (.ok ()) →
      sanitizeT env fuel t path v = some (.ok v) := by
  intro fuel
  induction fuel with
  | zero => intro t path v h; cases h
  | succ fuel ih =>
      intro t path v h
      cases t with
      | «alias» n => simp [validateT] at h
      | any => simp [sanitizeT]
      | array elemT =>
          cases v with
          | arr items =>
              simp only [validateT] at h
              have hall := (iterItems_ok_iff _ items).mp h
              simp only [sanitizeT]
              rw [iterSanItems_id
                (fun x => validateT env fuel elemT (path ++ ["__item__"]) none x)
                _ items (fun x _ hx => ih elemT _ x hx) (fun x hx => hall x hx)]
          | null => simp [validateT] at h
          | undefined => simp [validateT] at h
          | bool x => simp [validateT] at h
          | num x => simp [validateT] at h
          | str x => simp [validateT] at h
          | obj fs => simp [validateT] at h
      | boolean => simp [sanitizeT]
      | literal l => simp [sanitizeT]
      | null => simp [sanitizeT]
      | number => simp [sanitizeT]
      | object props =>
          simp only [validateT] at h
          by_cases hio : jsIsObject v = true
          · rw [hio] at h; simp at h
          · rw [eq_false_of_ne_true hio] at h; simp at h
      | string => simp [sanitizeT]
      | undefined => simp [sanitizeT]
      | union ts =>
          simp only [validateT] at h
          simp only [sanitizeT]
          exact iterSanUnion_of_ok _ _ v
            (fun i t htr => ih t _ v htr) ts 0 none h

/-
One-step unfolding lemmas, to rewrite one recursion level at a time
without unfolding deeper levels.
-/

/-- One step of the alias validator with a resolvable target. -/
theorem validateT_step_alias (env : Env) (fuel : Nat) (n : String)
    (path : List String) (b : Bool) (v : Value) (t2 : Ty)
    (hl : lookupEnv env n = some t2) :
    validateT env (fuel + 1) (.alias n) path (some b) v =
      validateT env fuel t2 [n] (some b) v := by
  simp [validateT, hl]

/-- One step of the array validator on an array input. -/
theorem validateT_step_arr (env : Env) (fuel : Nat) (elemT : Ty)
    (path : List String) (aap : Option Bool) (items : List Value) :
    validateT env (fuel + 1) (.array elemT) path aap (.arr items) =
      iterItems (fun x => validateT env fuel elemT (path ++ ["__item__"]) aap x)
        items := rfl

/-- One step of the object validator in lenient mode. -/
theorem validateT_step_obj_true (env : Env) (fuel : Nat)
    (props : List (String × Ty × Bool)) (path : List String) (v : Value)
    (hio : jsIsObject v = true) :
    validateT env (fuel + 1) (.object props) path (some true) v =
      iterProps (jsGetD v)
        (fun nm subT pv => validateT env fuel subT (path ++ [nm]) (some true) pv)
        props := by
  simp [validateT, hio]

/-- One step of the object validator in strict mode when all keys are
allowed. -/
theorem validateT_step_obj_false (env : Env) (fuel : Nat)
    (props : List (String × Ty × Bool)) (path : List String) (v : Value)
    (hio : jsIsObject v = true)
    (hk : firstDisallowed (props.map (fun p => p.1)) (jsKeys v) = none) :
    validateT env (fuel + 1) (.object props) path (some false) v =
      iterProps (jsGetD v)
        (fun nm subT pv => validateT env fuel subT (path ++ [nm]) (some false) pv)
        props := by
  simp [validateT, hio, hk]

/-- One step of the object validator in strict mode when an undeclared
key is present. -/
theorem validateT_step_obj_key (env : Env) (fuel : Nat)
    (props : List (String × Ty × Bool)) (path : List String) (v : Value)
    (k : String) (hio : jsIsObject v = true)
    (hk : firstDisallowed (props.map (fun p => p.1)) (jsKeys v) = some k) :
    validateT env (fuel + 1) (.object props) path (some false) v =
      some (.error (failMsg (dotted path ++ " does not allow key " ++ k) v)) := by
  simp [validateT, hio, hk]

/-- One step of the object validator on a non-object input. -/
theorem validateT_step_obj_not (env : Env) (fuel : Nat)
    (props : List (String × Ty × Bool)) (path : List String) (v : Value)
    (aap : Option Bool) (hio : jsIsObject v = false) :
    validateT env (fuel + 1) (.object props) path aap v =
      some (.error (failMsg (dotted path ++ " is not an object") v)) := by
  simp [validateT, hio]

/-- One step of the union validator. -/
theorem validateT_step_union (env : Env) (fuel : Nat) (ts : List Ty)
    (path : List String) (aap : Option Bool) (v : Value) :
    validateT env (fuel + 1) (.union ts) path aap v =
      iterUnion (fun i subT => validateT env fuel subT (path ++ [toString i]) aap v)
        ts 0 none := rfl

/-- One step of the alias sanitizer (the target's create inlined). -/
theorem sanitizeT_step_alias (env : Env) (fuel : Nat) (n : String)
    (path : List String) (v : Value) (t2 : Ty)
    (hl : lookupEnv env n = some t2) :
    sanitizeT env (fuel + 1) (.alias n) path v =
      (match validateT env fuel t2 [n] (some true) v with
       | none => none
       | some (.error m) => some (.error m)
       | some (.ok _) => sanitizeT env fuel t2 [n] v) := by
  simp [sanitizeT, hl]

/-- One step of the array sanitizer on an array input. -/
theorem sanitizeT_step_arr (env : Env) (fuel : Nat) (elemT : Ty)
    (path : List String) (items : List Value) :
    sanitizeT env (fuel + 1) (.array elemT) path (.arr items) =
      (match iterSanItems
          (fun x => sanitizeT env fuel elemT (path ++ ["__item__"]) x) items with
       | none => none
       | some (.error m) => some (.error m)
       | some (.ok ys) => some (.ok (.arr ys))) := rfl

/-- One step of the object sanitizer. -/
theorem sanitizeT_step_obj (env : Env) (fuel : Nat)
    (props : List (String × Ty × Bool)) (path : List String) (v : Value) :
    sanitizeT env (fuel + 1) (.object props) path v =
      (match iterSanProps (jsGetSan v)
          (fun nm subT pv => sanitizeT env fuel subT (path ++ [nm]) pv) props with
       | none => none
       | some (.error m) => some (.error m)
       | some (.ok fields) => some (.ok (.obj fields))) := rfl

/-- One step of the union sanitizer. -/
theorem sanitizeT_step_union (env : Env) (fuel : Nat) (ts : List Ty)
    (path : List String) (v : Value) :
    sanitizeT env (fuel + 1) (.union ts) path v =
      iterSanUnion
        (fun i subT => validateT env fuel subT (path ++ [toString i]) none v)
        (fun i subT => sanitizeT env fuel subT (path ++ [toString i]) v)
        ts 0 := rfl

/-
Fuel monotonicity: a settled outcome stays the same settled outcome
under more fuel, so fuel only decides which executions are modelled at
all, never their results.
-/

/-- Settled validator outcomes are fuel-monotone. -/
theorem validateT_mono (env : Env) :
    ∀ (fuel : Nat) (t : Ty) (path : List String) (aap : Option Bool) (v : Value) r,
      validateT env fuel t path aap v = some r →
      validateT env (fuel + 1) t path aap v = some r := by
  intro fuel
  induction fuel with
  | zero => intro t path aap v r h; cases h
  | succ fuel ih =>
      intro t path aap v r h
      cases t with
      | «alias» n =>
          cases aap with
          | none => simp [validateT] at h
          | some b =>
              cases hl : lookupEnv env n with
              | none => simp [validateT, hl] at h
              | some t2 =>
                  rw [validateT_step_alias env fuel n path b v t2 hl] at h
                  rw [validateT_step_alias env (fuel + 1) n path b v t2 hl]
                  exact ih t2 [n] (some b) v r h
      | any => exact h
      | array elemT =>
          cases v with
          | arr items =>
              rw [validateT_step_arr] at h
              rw [validateT_step_arr]
              exact iterItems_mono _ _
                (fun x s hx => ih elemT _ aap x s hx) items r h
          | null => exact h
          | undefined => exact h
          | bool x => exact h
          | num x => exact h
          | str x => exact h
          | obj fs => exact h
      | boolean => exact h
      | literal l => exact h
      | null => exact h
      | number => exact h
      | object props =>
          by_cases hio : jsIsObject v = true
          · cases aap with
            | none => simp [validateT, hio] at h
            | some b =>
                cases b with
                | true =>
                    rw [validateT_step_obj_true env fuel props path v hio] at h
                    rw [validateT_step_obj_true env (fuel + 1) props path v hio]
                    exact iterProps_mono _ _ _
                      (fun nm t pv s hc => ih t _ (some true) pv s hc) props r h
                | false =>
                    cases hk : firstDisallowed (props.map (fun p => p.1)) (jsKeys v) with
                    | some k =>
                        rw [validateT_step_obj_key env fuel props path v k hio hk] at h
                        rw [validateT_step_obj_key env (fuel + 1) props path v k hio hk]
                        exact h
                    | none =>
                        rw [validateT_step_obj_false env fuel props path v hio hk] at h
                        rw [validateT_step_obj_false env (fuel + 1) props path v hio hk]
                        exact iterProps_mono _ _ _
                          (fun nm t pv s hc => ih t _ (some false) pv s hc) props r h
          · have hio2 : jsIsObject v = false := by
              cases hb : jsIsObject v with
              | true => exact absurd hb hio
              | false => rfl
            rw [validateT_step_obj_not env fuel props path v aap hio2] at h
            rw [validateT_step_obj_not env (fuel + 1) props path v aap hio2]
            exact h
      | string => exact h
      | undefined => exact h
      | union ts =>
          rw [validateT_step_union] at h
          rw [validateT_step_union]
          exact iterUnion_mono _ _
            (fun i t s htr => ih t _ aap v s htr) ts 0 none r h

/-- Settled sanitizer outcomes are fuel-monotone. -/
theorem sanitizeT_mono (env : Env) :
    ∀ (fuel : Nat) (t : Ty) (path : List String) (v : Value) r,
      sanitizeT env fuel t path v = some r →
      sanitizeT env (fuel + 1) t path v = some r := by
  intro fuel
  induction fuel with
  | zero => intro t path v r h; cases h
  | succ fuel ih =>
      intro t path v r h
      cases t with
      | «alias» n =>
          cases hl : lookupEnv env n with
          | none => simp [sanitizeT, hl] at h
          | some t2 =>
              rw [sanitizeT_step_alias env fuel n path v t2 hl] at h
              rw [sanitizeT_step_alias env (fuel + 1) n path v t2 hl]
              cases hv : validateT env fuel t2 [n] (some true) v with
              | none => rw [hv] at h; cases h
              | some s =>
                  rw [hv] at h
                  rw [validateT_mono env fuel t2 [n] (some true) v s hv]
                  cases s with
                  | error m => exact h
                  | ok u => exact ih t2 [n] v r h
      | any => exact h
      | array elemT =>
          cases v with
          | arr items =>
              rw [sanitizeT_step_arr] at h
              rw [sanitizeT_step_arr]
              cases hit : iterSanItems
                  (fun x => sanitizeT env fuel elemT (path ++ ["__item__"]) x) items with
              | none => rw [hit] at h; cases h
              | some s =>
                  rw [hit] at h
                  rw [iterSanItems_mono _ _
                    (fun x s2 hx => ih elemT _ x s2 hx) items s hit]
                  exact h
          | null => exact h
          | undefined => exact h
          | bool x => exact h
          | num x => exact h
          | str x => exact h
          | obj fs => exact h
      | boolean => exact h
      | literal l => exact h
      | null => exact h
      | number => exact h
      | object props =>
          rw [sanitizeT_step_obj] at h
          rw [sanitizeT_step_obj]
          cases hp : iterSanProps (jsGetSan v)
              (fun nm subT pv => sanitizeT env fuel subT (path ++ [nm]) pv) props with
          | none => rw [hp] at h; cases h
          | some s =>
              rw [hp] at h
              rw [iterSanProps_mono _ _ _
                (fun nm t pv s2 hx => ih t _ pv s2 hx) props s hp]
              exact h
      | string => exact h
      | undefined => exact h
      | union ts =>
          rw [sanitizeT_step_union] at h
          rw [sanitizeT_step_union]
          exact iterSanUnion_mono _ _ _ _
            (fun i t s htr => validateT_mono env fuel t _ none v s htr)
            (fun i t s hs => ih t _ v s hs) ts 0 r h

/-- Settled validator outcomes persist to any larger fuel. -/
theorem validateT_mono_le (env : Env) {f1 f2 : Nat} (hle : f1 ≤ f2) :
    ∀ (t : Ty) (path : List String) (aap : Option Bool) (v : Value) r,
      validateT env f1 t path aap v = some r →
      validateT env f2 t path aap v = some r := by
  induction hle with
  | refl => intro t path aap v r h; exact h
  | step _ ih =>
      intro t path aap v r h
      exact validateT_mono env _ t path aap v r (ih t path aap v r h)

/-- Settled sanitizer outcomes persist to any larger fuel. -/
theorem sanitizeT_mono_le (env : Env) {f1 f2 : Nat} (hle : f1 ≤ f2) :
    ∀ (t : Ty) (path : List String) (v : Value) r,
      sanitizeT env f1 t path v = some r →
      sanitizeT env f2 t path v = some r := by
  induction hle with
  | refl => intro t path v r h; exact h
  | step _ ih =>
      intro t path v r h
      exact sanitizeT_mono env _ t path v r (ih t path v r h)

/-- Two settled validator outcomes at any fuels agree. -/
theorem validateT_det (env : Env) {f1 f2 : Nat} {t : Ty} {path : List String}
    {aap : Option Bool} {v : Value} {r1 r2} :
    validateT env f1 t path aap v = some r1 →
    validateT env f2 t path aap v = some r2 → r1 = r2 := by
  intro h1 h2
  rcases Nat.le_total f1 f2 with hle | hle
  · have := validateT_mono_le env hle t path aap v r1 h1
    rw [this] at h2; exact Option.some.inj h2
  · have := validateT_mono_le env hle t path aap v r2 h2
    rw [this] at h1; exact (Option.some.inj h1).symm

/-
Inversion lemmas for the generated validate wrapper.
-/

/-- A true return means the raw check completed and the catcher state
is the caller's. -/
theorem topValidate_true_inv (env : Env) (fuel : Nat) (name : String) (t : Ty)
    (v : Value) (opts : VOptions) (c : Option ErrorCatcher) :
    topValidate env fuel name t v opts = some (.ok (true, c)) →
    validateT env fuel t [name] (some opts.allowAdditionalProperties) v =
        some (.ok ()) ∧ c = opts.errorCatcher := by
  intro h
  unfold topValidate at h
  cases hv : validateT env fuel t [name] (some opts.allowAdditionalProperties) v with
  | none => rw [hv] at h; cases h
  | some s =>
      rw [hv] at h
      cases s with
      | ok u => cases u; simp at h; exact ⟨rfl, h.symm⟩
      | error m =>
          cases hc : opts.errorCatcher with
          | none => rw [hc] at h; simp at h
          | some c0 => rw [hc] at h; simp at h

/-- A false return requires a supplied errorCatcher and a
ValidationError from the raw check. -/
theorem topValidate_false_inv (env : Env) (fuel : Nat) (name : String) (t : Ty)
    (v : Value) (opts : VOptions) (c : Option ErrorCatcher) :
    topValidate env fuel name t v opts = some (.ok (false, c)) →
    ∃ m c0,
      validateT env fuel t [name] (some opts.allowAdditionalProperties) v =
          some (.error m) ∧
      opts.errorCatcher = some c0 ∧ c = some ⟨m⟩ := by
  intro h
  unfold topValidate at h
  cases hv : validateT env fuel t [name] (some opts.allowAdditionalProperties) v with
  | none => rw [hv] at h; cases h
  | some s =>
      rw [hv] at h
      cases s with
      | ok u => cases u; simp at h
      | error m =>
          cases hc : opts.errorCatcher with
          | none => rw [hc] at h; simp at h
          | some c0 =>
              rw [hc] at h
              simp at h
              exact ⟨m, c0, rfl, rfl, h.symm⟩

/-- A raised ValidationError means the raw check raised it and no
errorCatcher was supplied. -/
theorem topValidate_error_inv (env : Env) (fuel : Nat) (name : String) (t : Ty)
    (v : Value) (opts : VOptions) (m : String) :
    topValidate env fuel name t v opts = some (.error m) →
    validateT env fuel t [name] (some opts.allowAdditionalProperties) v =
        some (.error m) ∧ opts.errorCatcher = none := by
  intro h
  unfold topValidate at h
  cases hv : validateT env fuel t [name] (some opts.allowAdditionalProperties) v with
  | none => rw [hv] at h; cases h
  | some s =>
      rw [hv] at h
      cases s with
      | ok u => cases u; simp at h
      | error m2 =>
          cases hc : opts.errorCatcher with
          | none =>
              rw [hc] at h
              simp at h
              exact ⟨by rw [h], rfl⟩
          | some c0 => rw [hc] at h; simp at h

/-
The sanitizer can only raise a ValidationError out of an alias
delegation, and never does so on a value the corresponding check has
already accepted in create's allowAdditionalProperties-true pass.
-/

/-- The union sanitizer loop never lets a ValidationError escape: both
member outcomes that carry one are caught and iteration continues. -/
theorem iterSanUnion_noVF (trial : Nat → Ty → VRes) (san : Nat → Ty → SRes) :
    ∀ (ts : List Ty) i m, iterSanUnion trial san ts i ≠ some (.error m) := by
  intro ts
  induction ts with
  | nil => intro i m h; simp [iterSanUnion] at h
  | cons t rest ih =>
      intro i m h
      simp only [iterSanUnion] at h
      cases htr : trial i t with
      | none => rw [htr] at h; cases h
      | some s =>
          rw [htr] at h
          cases s with
          | error e => exact ih (i + 1) m h
          | ok u =>
              cases hs : san i t with
              | none => rw [hs] at h; cases h
              | some s2 =>
                  rw [hs] at h
                  cases s2 with
                  | error e => exact ih (i + 1) m h
                  | ok sv => simp at h

/-- The element loop raises no ValidationError when no element
sanitizer does. -/
theorem iterSanItems_noVF (g : Value → SRes) :
    ∀ (xs : List Value), (∀ x ∈ xs, ∀ m, g x ≠ some (.error m)) →
      ∀ m, iterSanItems g xs ≠ some (.error m) := by
  intro xs
  induction xs with
  | nil => intro _ m h; simp [iterSanItems] at h
  | cons x xs ih =>
      intro H m h
      simp only [iterSanItems] at h
      cases hgx : g x with
      | none => rw [hgx] at h; cases h
      | some s =>
          rw [hgx] at h
          cases s with
          | error e => exact H x (by simp) e hgx
          | ok y =>
              cases hrest : iterSanItems g xs with
              | none => rw [hrest] at h; cases h
              | some s2 =>
                  rw [hrest] at h
                  cases s2 with
                  | error e =>
                      exact ih (fun z hz => H z (by simp [hz])) e hrest
                  | ok ys => simp at h

/-- The field loop raises no ValidationError when no reachable property
sanitizer does. -/
theorem iterSanProps_noVF (get : String → Option Value)
    (san : String → Ty → Value → SRes) :
    ∀ (props : List (String × Ty × Bool)),
      (∀ nm t req pv, (nm, t, req) ∈ props → get nm = some pv →
        (req || !(isUndef pv)) = true → ∀ m, san nm t pv ≠ some (.error m)) →
      ∀ m, iterSanProps get san props ≠ some (.error m) := by
  intro props
  induction props with
  | nil => intro _ m h; simp [iterSanProps] at h
  | cons p rest ih =>
      intro H m h
      obtain ⟨nm, t, req⟩ := p
      simp only [iterSanProps] at h
      cases hg : get nm with
      | none => simp only [hg] at h; cases h
      | some pv =>
          simp only [hg] at h
          by_cases hguard : (req || !(isUndef pv)) = true
          · rw [if_pos hguard] at h
            cases hs : san nm t pv with
            | none => rw [hs] at h; cases h
            | some s =>
                rw [hs] at h
                cases s with
                | error e => exact H nm t req pv (by simp) hg hguard e hs
                | ok sv =>
                    cases hrest : iterSanProps get san rest with
                    | none => rw [hrest] at h; cases h
                    | some s2 =>
                        rw [hrest] at h
                        cases s2 with
                        | error e =>
                            exact ih
                              (fun nm2 t2 req2 pv2 hmem hg2 hguard2 =>
                                H nm2 t2 req2 pv2 (by simp [hmem]) hg2 hguard2)
                              e hrest
                        | ok fs => simp at h
          · rw [if_neg hguard] at h
            exact ih
              (fun nm2 t2 req2 pv2 hmem hg2 hguard2 =>
                H nm2 t2 req2 pv2 (by simp [hmem]) hg2 hguard2)
              m h

/-- Inversion for a successful property loop: every property whose
guard fires was checked successfully. -/
theorem iterProps_ok_elem (get : String → Value) (check : String → Ty → Value → VRes) :
    ∀ (props : List (String × Ty × Bool)),
      iterProps get check props = some (.ok ()) →
      ∀ nm t req, (nm, t, req) ∈ props → (req || !(isUndef (get nm))) = true →
      check nm t (get nm) = some (.ok ()) := by
  intro props
  induction props with
  | nil => intro _ nm t req hmem; simp at hmem
  | cons p rest ih =>
      intro h nm t req hmem hguard
      obtain ⟨nm0, t0, req0⟩ := p
      simp only [iterProps] at h
      by_cases hg : (req0 || !(isUndef (get nm0))) = true
      · rw [if_pos hg] at h
        cases hc : check nm0 t0 (get nm0) with
        | none => rw [hc] at h; cases h
        | some s =>
            rw [hc] at h
            cases s with
            | error m => cases h
            | ok u =>
                cases u
                rcases List.mem_cons.mp hmem with heq | hmem2
                · cases heq; exact hc
                · exact ih h nm t req hmem2 hguard
      · rw [if_neg hg] at h
        rcases List.mem_cons.mp hmem with heq | hmem2
        · cases heq; exact absurd hguard hg
        · exact ih h nm t req hmem2 hguard

/-- On a value that passed the object guard, the sanitizer's property
access equals the validator's property access. -/
theorem jsGetSan_of_isObject (v : Value) (hio : jsIsObject v = true) (nm : String) :
    jsGetSan v nm = some (jsGetD v nm) := by
  cases v with
  | null => simp [jsIsObject] at hio
  | undefined => simp [jsIsObject, jsTypeof] at hio
  | bool b => simp [jsIsObject, jsTypeof] at hio
  | num n => simp [jsIsObject, jsTypeof] at hio
  | str s => simp [jsIsObject, jsTypeof] at hio
  | arr items => rfl
  | obj fields => rfl

/-- After a successful check with allowAdditionalProperties bound to
true, the sanitizer cannot raise a ValidationError. -/
theorem sanTrue_noVF (env : Env) :
    ∀ (fuel : Nat) (t : Ty) (path : List String) (v : Value),
      validateT env fuel t path (some true) v = some (.ok ()) →
      ∀ m, sanitizeT env fuel t path v ≠ some (.error m) := by
  intro fuel
  induction fuel with
  | zero => intro t path v h; cases h
  | succ fuel ih =>
      intro t path v h m hs
      cases t with
      | «alias» n =>
          cases hl : lookupEnv env n with
          | none => simp [validateT, hl] at h
          | some t2 =>
              rw [validateT_step_alias env fuel n path true v t2 hl] at h
              have hs2 : sanitizeT env fuel t2 [n] v = some (.error m) := by
                rw [sanitizeT_step_alias env fuel n path v t2 hl, h] at hs
                exact hs
              exact ih t2 [n] v h m hs2
      | any => simp [sanitizeT] at hs
      | array elemT =>
          cases v with
          | arr items =>
              rw [validateT_step_arr] at h
              rw [sanitizeT_step_arr] at hs
              have hall := (iterItems_ok_iff _ items).mp h
              have hnone := iterSanItems_noVF
                (fun x => sanitizeT env fuel elemT (path ++ ["__item__"]) x) items
                (fun x hx m2 => ih elemT _ x (hall x hx) m2)
              cases hit : iterSanItems
                  (fun x => sanitizeT env fuel elemT (path ++ ["__item__"]) x) items with
              | none => rw [hit] at hs; cases hs
              | some s =>
                  rw [hit] at hs
                  cases s with
                  | error e => exact hnone e hit
                  | ok ys => simp at hs
          | null => simp [validateT] at h
          | undefined => simp [validateT] at h
          | bool x => simp [validateT] at h
          | num x => simp [validateT] at h
          | str x => simp [validateT] at h
          | obj fs => simp [validateT] at h
      | boolean => simp [sanitizeT] at hs
      | literal l => simp [sanitizeT] at hs
      | null => simp [sanitizeT] at hs
      | number => simp [sanitizeT] at hs
      | object props =>
          rw [sanitizeT_step_obj] at hs
          by_cases hio : jsIsObject v = true
          · rw [validateT_step_obj_true env fuel props path v hio] at h
            have hall := iterProps_ok_elem (jsGetD v) _ props h
            have hnone := iterSanProps_noVF (jsGetSan v)
              (fun nm2 subT pv => sanitizeT env fuel subT (path ++ [nm2]) pv) props
              (fun nm2 t2 req2 pv hmem hg hguard m2 => by
                rw [jsGetSan_of_isObject v hio nm2] at hg
                have hpv := Option.some.inj hg
                rw [← hpv] at hguard ⊢
                exact ih t2 (path ++ [nm2]) (jsGetD v nm2)
                  (hall nm2 t2 req2 hmem hguard) m2)
            cases hp : iterSanProps (jsGetSan v)
                (fun nm2 subT pv => sanitizeT env fuel subT (path ++ [nm2]) pv) props with
            | none => rw [hp] at hs; cases hs
            | some s =>
                rw [hp] at hs
                cases s with
                | error e => exact hnone e hp
                | ok fields => simp at hs
          · have hio2 : jsIsObject v = false := by
              cases hb : jsIsObject v with
              | true => exact absurd hb hio
              | false => rfl
            rw [validateT_step_obj_not env fuel props path v (some true) hio2] at h
            simp at h
      | string => simp [sanitizeT] at hs
      | undefined => simp [sanitizeT] at hs
      | union ts =>
          simp only [sanitizeT] at hs
          exact iterSanUnion_noVF _ _ ts 0 m hs

/-- Claim C5: create first validates with allowAdditionalProperties
forced to true (raising any ValidationFailure of that step unchanged)
and then returns the sanitized value; every ValidationFailure create
raises is exactly the one the validate step raised, so create has no
ValidationFailure path of its own (its own throw statement is dead
code, and the sanitizer raises none after a successful check). -/
theorem c5_create_contract (env : Env) (fuel : Nat) (name : String) (t : Ty)
    (v : Value) :
    (∀ r, createT env fuel name t v = some (.ok r) →
      topValidate env fuel name t v ⟨none, true⟩ = some (.ok (true, none)) ∧
      sanitizeT env fuel t [name] v = some (.ok r)) ∧
    (∀ m, createT env fuel name t v = some (.error m) →
      topValidate env fuel name t v ⟨none, true⟩ = some (.error m)) := by
  constructor
  · intro r h
    unfold createT at h
    cases hv : topValidate env fuel name t v ⟨none, true⟩ with
    | none => rw [hv] at h; cases h
    | some s =>
        rw [hv] at h
        cases s with
        | error m => cases h
        | ok p =>
            obtain ⟨bres, c⟩ := p
            cases bres with
            | false =>
                obtain ⟨m, c0, _, hc, _⟩ := topValidate_false_inv env fuel name t v ⟨none, true⟩ c hv
                cases hc
            | true =>
                obtain ⟨_, hc⟩ := topValidate_true_inv env fuel name t v ⟨none, true⟩ c hv
                refine ⟨?_, h⟩
                have hcn : c = none := hc
                rw [hcn]
  · intro m h
    unfold createT at h
    cases hv : topValidate env fuel name t v ⟨none, true⟩ with
    | none => rw [hv] at h; cases h
    | some s =>
        rw [hv] at h
        cases s with
        | error m2 =>
            have hm : m2 = m := by simpa using h
            rw [← hm]
        | ok p =>
            obtain ⟨bres, c⟩ := p
            cases bres with
            | false =>
                obtain ⟨m2, c0, _, hc, _⟩ := topValidate_false_inv env fuel name t v ⟨none, true⟩ c hv
                cases hc
            | true =>
                obtain ⟨hval, _⟩ := topValidate_true_inv env fuel name t v ⟨none, true⟩ c hv
                exact absurd h (sanTrue_noVF env fuel t [name] v hval m)

/-- Witness for C5: the stripping example's successful create is the
validate-then-sanitize pipeline. -/
theorem c5_create_contract_witness :
    topValidate exEnvS 10 "S" exStripTy exVStrip ⟨none, true⟩ =
        some (.ok (true, none)) ∧
    sanitizeT exEnvS 10 exStripTy ["S"] exVStrip =
        some (.ok (.obj [("a", .num 1), ("b", .num 2)])) :=
  (c5_create_contract exEnvS 10 "S" exStripTy exVStrip).1
    (.obj [("a", .num 1), ("b", .num 2)]) (by decide)

/-
Inversion of a successful create, and the shape of sanitized object
fields.
-/

/-- A successful create means the lenient validation succeeded and the
result is the sanitizer's output. -/
theorem createT_ok_inv (env : Env) (fuel : Nat) (name : String) (t : Ty)
    (v : Value) (r : Value) :
    createT env fuel name t v = some (.ok r) →
    validateT env fuel t [name] (some true) v = some (.ok ()) ∧
    sanitizeT env fuel t [name] v = some (.ok r) := by
  intro h
  unfold createT at h
  cases hv : topValidate env fuel name t v ⟨none, true⟩ with
  | none => rw [hv] at h; cases h
  | some s =>
      rw [hv] at h
      cases s with
      | error m => cases h
      | ok p =>
          obtain ⟨bres, c⟩ := p
          cases bres with
          | false =>
              obtain ⟨m, c0, _, hc, _⟩ :=
                topValidate_false_inv env fuel name t v ⟨none, true⟩ c hv
              cases hc
          | true =>
              obtain ⟨hval, _⟩ :=
                topValidate_true_inv env fuel name t v ⟨none, true⟩ c hv
              exact ⟨hval, h⟩

/-- Keys of a sanitized field list all come from the declared property
list. -/
theorem iterSanProps_keys_sub (get : String → Option Value)
    (san : String → Ty → Value → SRes) :
    ∀ (props : List (String × Ty × Bool)) fields,
      iterSanProps get san props = some (.ok fields) →
      ∀ k ∈ fields.map Prod.fst, k ∈ props.map (fun p => p.1) := by
  intro props
  induction props with
  | nil =>
      intro fields h k hk
      simp only [iterSanProps] at h
      cases h; simp at hk
  | cons p rest ih =>
      intro fields h k hk
      obtain ⟨nm, t, req⟩ := p
      simp only [iterSanProps] at h
      cases hg : get nm with
      | none => simp only [hg] at h; cases h
      | some pv =>
          simp only [hg] at h
          by_cases hguard : (req || !(isUndef pv)) = true
          · rw [if_pos hguard] at h
            cases hs : san nm t pv with
            | none => rw [hs] at h; cases h
            | some s =>
                rw [hs] at h
                cases s with
                | error m => cases h
                | ok sv =>
                    cases hrest : iterSanProps get san rest with
                    | none => rw [hrest] at h; cases h
                    | some s2 =>
                        rw [hrest] at h
                        cases s2 with
                        | error m => cases h
                        | ok fs =>
                            have hfields : fields = (nm, sv) :: fs := by
                              simpa using h.symm
                            subst hfields
                            simp only [List.map_cons, List.mem_cons] at hk
                            rcases hk with hk | hk
                            · simp [hk]
                            · have := ih fs hrest k (by simpa using hk)
                              simp [this]
          · rw [if_neg hguard] at h
            have := ih fields h k hk
            simp [this]

/-- Every required declared property appears in the sanitized fields
with its recursively sanitized value. -/
theorem iterSanProps_required (get : String → Option Value)
    (san : String → Ty → Value → SRes) :
    ∀ (props : List (String × Ty × Bool)) fields (nm : String) (t : Ty),
      iterSanProps get san props = some (.ok fields) →
      (nm, t, true) ∈ props →
      ∃ pv sv, get nm = some pv ∧ san nm t pv = some (.ok sv) ∧
        (nm, sv) ∈ fields := by
  intro props
  induction props with
  | nil => intro fields nm t _ hmem; simp at hmem
  | cons p rest ih =>
      intro fields nm t h hmem
      obtain ⟨nm0, t0, req0⟩ := p
      simp only [iterSanProps] at h
      cases hg : get nm0 with
      | none => simp only [hg] at h; cases h
      | some pv0 =>
          simp only [hg] at h
          by_cases hguard : (req0 || !(isUndef pv0)) = true
          · rw [if_pos hguard] at h
            cases hs : san nm0 t0 pv0 with
            | none => rw [hs] at h; cases h
            | some s =>
                rw [hs] at h
                cases s with
                | error m => cases h
                | ok sv0 =>
                    cases hrest : iterSanProps get san rest with
                    | none => rw [hrest] at h; cases h
                    | some s2 =>
                        rw [hrest] at h
                        cases s2 with
                        | error m => cases h
                        | ok fs =>
                            have hfields : fields = (nm0, sv0) :: fs := by
                              simpa using h.symm
                            subst hfields
                            rcases List.mem_cons.mp hmem with heq | hmem2
                            · cases heq
                              exact ⟨pv0, sv0, hg, hs, by simp⟩
                            · obtain ⟨pv, sv, h1, h2, h3⟩ := ih fs nm t hrest hmem2
                              exact ⟨pv, sv, h1, h2, by simp [h3]⟩
          · rw [if_neg hguard] at h
            rcases List.mem_cons.mp hmem with heq | hmem2
            · cases heq; simp at hguard
            · exact ih fields nm t h hmem2

/-- A declared optional property appears among the sanitized keys
exactly when its accessed value is defined, provided declared names
are distinct (they are: the source type is a Record). -/
theorem iterSanProps_optional (get : String → Option Value)
    (san : String → Ty → Value → SRes) :
    ∀ (props : List (String × Ty × Bool)) fields (nm : String) (t : Ty),
      (props.map (fun p => p.1)).Nodup →
      iterSanProps get san props = some (.ok fields) →
      (nm, t, false) ∈ props →
      (nm ∈ fields.map Prod.fst ↔
        ∃ pv, get nm = some pv ∧ isUndef pv = false) := by
  intro props
  induction props with
  | nil => intro fields nm t _ _ hmem; simp at hmem
  | cons p rest ih =>
      intro fields nm t hnd h hmem
      obtain ⟨nm0, t0, req0⟩ := p
      have hpair :=
        List.nodup_cons.mp (hnd : (nm0 :: rest.map (fun p => p.1)).Nodup)
      have hnm0 : nm0 ∉ rest.map (fun p => p.1) := hpair.1
      have hnd2 : (rest.map (fun p => p.1)).Nodup := hpair.2
      simp only [iterSanProps] at h
      cases hg : get nm0 with
      | none => simp only [hg] at h; cases h
      | some pv0 =>
          simp only [hg] at h
          by_cases hguard : (req0 || !(isUndef pv0)) = true
          · rw [if_pos hguard] at h
            cases hs : san nm0 t0 pv0 with
            | none => rw [hs] at h; cases h
            | some s =>
                rw [hs] at h
                cases s with
                | error m => cases h
                | ok sv0 =>
                    cases hrest : iterSanProps get san rest with
                    | none => rw [hrest] at h; cases h
                    | some s2 =>
                        rw [hrest] at h
                        cases s2 with
                        | error m => cases h
                        | ok fs =>
                            have hfields : fields = (nm0, sv0) :: fs := by
                              simpa using h.symm
                            subst hfields
                            rcases List.mem_cons.mp hmem with heq | hmem2
                            · cases heq
                              constructor
                              · intro _
                                refine ⟨pv0, hg, ?_⟩
                                simpa using hguard
                              · intro _; simp
                            · have hne : nm ≠ nm0 := by
                                intro he
                                apply hnm0
                                rw [← he]
                                exact List.mem_map.mpr ⟨(nm, t, false), hmem2, rfl⟩
                              have := ih fs nm t hnd2 hrest hmem2
                              simp only [List.map_cons, List.mem_cons]
                              rw [← this]
                              constructor
                              · intro hx
                                rcases hx with hx | hx
                                · exact absurd hx hne
                                · exact hx
                              · intro hx; exact Or.inr hx
          · rw [if_neg hguard] at h
            rcases List.mem_cons.mp hmem with heq | hmem2
            · cases heq
              simp only [Bool.false_or] at hguard
              have hundef : isUndef pv0 = true := by
                cases hiu : isUndef pv0 with
                | true => rfl
                | false => rw [hiu] at hguard; simp at hguard
              constructor
              · intro hin
                have := iterSanProps_keys_sub get san rest fields h nm hin
                exact absurd this hnm0
              · intro ⟨pv, hpv, hiu⟩
                rw [hg] at hpv
                cases hpv
                rw [hundef] at hiu
                cases hiu
            · have hne : nm ≠ nm0 := by
                intro he
                apply hnm0
                rw [← he]
                exact List.mem_map.mpr ⟨(nm, t, false), hmem2, rfl⟩
              exact ih fields nm t hnd2 h hmem2

/-- Claim C4: for an object type, a successful create returns a
mapping built from only the declared properties: every key of the
result is declared, every required property is present with its
recursively sanitized value, and an optional property is present
exactly when the input's accessed value is not undefined (so
undeclared input keys are dropped); concretely,
create over object(a required, b optional) of {a:1, b:2, c:3} is
{a:1, b:2}.  (The result is built as a fresh object literal; reference
identity is outside this value model.) -/
theorem c4_object_create :
    (∀ (env : Env) (fuel : Nat) (name : String)
        (props : List (String × Ty × Bool)) (v : Value) (r : Value),
      (props.map (fun p => p.1)).Nodup →
      createT env (fuel + 1) name (.object props) v = some (.ok r) →
      ∃ fields, r = .obj fields ∧
        (∀ k ∈ fields.map Prod.fst, k ∈ props.map (fun p => p.1)) ∧
        (∀ nm t, (nm, t, true) ∈ props → ∃ pv sv, jsGetSan v nm = some pv ∧
          sanitizeT env fuel t ([name] ++ [nm]) pv = some (.ok sv) ∧
          (nm, sv) ∈ fields) ∧
        (∀ nm t, (nm, t, false) ∈ props →
          (nm ∈ fields.map Prod.fst ↔
            ∃ pv, jsGetSan v nm = some pv ∧ isUndef pv = false))) ∧
    createT exEnvS 10 "S" exStripTy exVStrip =
      some (.ok (.obj [("a", .num 1), ("b", .num 2)])) := by
  refine ⟨?_, by decide⟩
  intro env fuel name props v r hnd h
  obtain ⟨hval, hsan⟩ := createT_ok_inv env (fuel + 1) name (.object props) v r h
  rw [sanitizeT_step_obj] at hsan
  cases hp : iterSanProps (jsGetSan v)
      (fun nm subT pv => sanitizeT env fuel subT ([name] ++ [nm]) pv) props with
  | none => rw [hp] at hsan; cases hsan
  | some s =>
      rw [hp] at hsan
      cases s with
      | error m => cases hsan
      | ok fields =>
          have hr : r = .obj fields := by simpa using hsan.symm
          refine ⟨fields, hr, ?_, ?_, ?_⟩
          · exact iterSanProps_keys_sub _ _ props fields hp
          · intro nm t hmem
            exact iterSanProps_required _ _ props fields nm t hp hmem
          · intro nm t hmem
            exact iterSanProps_optional _ _ props fields nm t hnd hp hmem

/-- Witness for C4: the general part applied to the stripping
example. -/
theorem c4_object_create_witness :
    ∃ fields, (Value.obj [("a", .num 1), ("b", .num 2)]) = .obj fields ∧
      (∀ k ∈ fields.map Prod.fst,
        k ∈ [("a", Ty.number, true), ("b", Ty.number, false)].map (fun p => p.1)) ∧
      (∀ nm t, (nm, t, true) ∈ [("a", Ty.number, true), ("b", Ty.number, false)] →
        ∃ pv sv, jsGetSan exVStrip nm = some pv ∧
          sanitizeT exEnvS 9 t (["S"] ++ [nm]) pv = some (.ok sv) ∧
          (nm, sv) ∈ fields) ∧
      (∀ nm t, (nm, t, false) ∈ [("a", Ty.number, true), ("b", Ty.number, false)] →
        (nm ∈ fields.map Prod.fst ↔
          ∃ pv, jsGetSan exVStrip nm = some pv ∧ isUndef pv = false)) :=
  c4_object_create.1 exEnvS 9 "S" [("a", .number, true), ("b", .number, false)]
    exVStrip (.obj [("a", .num 1), ("b", .num 2)]) (by decide) (by decide)

/-- Counterexample for C1.  First: for T = object(a required number)
and v = {a:1, b:2}, validate with no options does not return true (it
raises "does not allow key b"), yet create succeeds and its result's
keys are within the declared ones — so the claimed iff fails right to
left.  Second: for U = union(object(), number) and v = {}, validate
with no options returns true, yet create does not succeed (its union
sanitizer re-validates the object member in a scope where
allowAdditionalProperties is not bound, a fault) — so it also fails
left to right. -/
theorem c1_validate_create_counterexample :
    (topValidate exEnv1 10 "T" exObjTy exV1 noOptions ≠ some (.ok (true, none)) ∧
      createT exEnv1 10 "T" exObjTy exV1 = some (.ok (.obj [("a", .num 1)])) ∧
      (∀ k ∈ [("a", Value.num 1)].map Prod.fst,
        k ∈ [("a", Ty.number, true)].map (fun p => p.1))) ∧
    (topValidate exEnvUO 10 "U" exUnionObjNum (.obj []) noOptions =
        some (.ok (true, none)) ∧
      createT exEnvUO 10 "U" exUnionObjNum (.obj []) = none) := by
  refine ⟨⟨by decide, by decide, by decide⟩, by decide, by decide⟩

/-- Claim C1 (amended): when create succeeds, validation with
allowAdditionalProperties true (the pass create itself runs) returns
true, and for an object type the keys of the returned value are a
subset of the declared property names.  (The original iff against
no-options validate fails in both directions: strict validation
rejects inputs whose create succeeds after stripping, and a
no-options-validated union with an object member makes create fault.) -/
theorem c1_create_validate_amended :
    ∀ (env : Env) (fuel : Nat) (name : String) (t : Ty) (v r : Value),
      createT env fuel name t v = some (.ok r) →
      topValidate env fuel name t v ⟨none, true⟩ = some (.ok (true, none)) ∧
      (∀ props, t = .object props → ∃ fields, r = .obj fields ∧
        ∀ k ∈ fields.map Prod.fst, k ∈ props.map (fun p => p.1)) := by
  intro env fuel name t v r h
  obtain ⟨hval, hsan⟩ := createT_ok_inv env fuel name t v r h
  constructor
  · simp [topValidate, hval]
  · intro props hprops
    subst hprops
    cases fuel with
    | zero => cases hval
    | succ fuel =>
        rw [sanitizeT_step_obj] at hsan
        cases hp : iterSanProps (jsGetSan v)
            (fun nm subT pv => sanitizeT env fuel subT ([name] ++ [nm]) pv) props with
        | none => rw [hp] at hsan; cases hsan
        | some s =>
            rw [hp] at hsan
            cases s with
            | error m => cases hsan
            | ok fields =>
                have hr : r = .obj fields := by simpa using hsan.symm
                exact ⟨fields, hr, iterSanProps_keys_sub _ _ props fields hp⟩

/-- Witness for the amended C1 at the stripping example. -/
theorem c1_create_validate_amended_witness :
    topValidate exEnvS 10 "S" exStripTy exVStrip ⟨none, true⟩ =
        some (.ok (true, none)) ∧
    (∀ props, exStripTy = .object props →
      ∃ fields, (Value.obj [("a", .num 1), ("b", .num 2)]) = .obj fields ∧
        ∀ k ∈ fields.map Prod.fst, k ∈ props.map (fun p => p.1)) :=
  c1_create_validate_amended exEnvS 10 "S" exStripTy exVStrip
    (.obj [("a", .num 1), ("b", .num 2)]) (by decide)

/-
The union sanitizer's member selection.
-/

/-- Inversion of a successful union sanitizer run, assuming (as holds
for the generated code) that a member whose trial succeeds never lets
its sanitizer raise a ValidationError: the result comes from the first
member whose trial validation succeeds, all earlier members having
failed their trials; if no member's trial succeeds the fall-through
result is the undefined value. -/
theorem iterSanUnion_ok_inv (trial : Nat → Ty → VRes) (san : Nat → Ty → SRes)
    (Hnoerr : ∀ i t, trial i t = some (.ok ()) →
      ∀ m, san i t ≠ some (.error m)) :
    ∀ (ts : List Ty) (i : Nat) (sv : Value),
      iterSanUnion trial san ts i = some (.ok sv) →
      (∃ j, ∃ hj : j < ts.length,
        (∀ k, (hk : k < ts.length) → k < j → ∃ m,
          trial (i + k) (ts.get ⟨k, hk⟩) = some (.error m)) ∧
        trial (i + j) (ts.get ⟨j, hj⟩) = some (.ok ()) ∧
        san (i + j) (ts.get ⟨j, hj⟩) = some (.ok sv)) ∨
      ((∀ k, (hk : k < ts.length) → ∃ m,
          trial (i + k) (ts.get ⟨k, hk⟩) = some (.error m)) ∧
        sv = .undefined) := by
  intro ts
  induction ts with
  | nil =>
      intro i sv h
      right
      refine ⟨fun k hk => by simp at hk, ?_⟩
      simpa [iterSanUnion] using h.symm
  | cons t rest ih =>
      intro i sv h
      simp only [iterSanUnion] at h
      cases htr : trial i t with
      | none => rw [htr] at h; cases h
      | some s =>
          rw [htr] at h
          cases s with
          | ok u =>
              cases u
              cases hs : san i t with
              | none => rw [hs] at h; cases h
              | some s2 =>
                  rw [hs] at h
                  cases s2 with
                  | error m => exact absurd hs (Hnoerr i t htr m)
                  | ok sv0 =>
                      left
                      have hsv : sv0 = sv := by simpa using h
                      refine ⟨0, by simp, fun k hk hk0 => by omega, ?_, ?_⟩
                      · simpa using htr
                      · rw [hsv] at hs
                        simpa using hs
          | error e =>
              rcases ih (i + 1) sv h with ⟨j, hj, hpri, hok, hsan⟩ | ⟨hall, hsv⟩
              · left
                refine ⟨j + 1, by simpa using Nat.succ_lt_succ hj, ?_, ?_, ?_⟩
                · intro k hk hklt
                  cases k with
                  | zero => exact ⟨e, by simpa using htr⟩
                  | succ k2 =>
                      have hk2 : k2 < rest.length := by simpa using Nat.lt_of_succ_lt_succ hk
                      obtain ⟨m, hm⟩ := hpri k2 hk2 (Nat.lt_of_succ_lt_succ hklt)
                      refine ⟨m, ?_⟩
                      have harith : i + (k2 + 1) = i + 1 + k2 := by omega
                      rw [harith]
                      simpa using hm
                · have harith : i + (j + 1) = i + 1 + j := by omega
                  rw [harith]
                  simpa using hok
                · have harith : i + (j + 1) = i + 1 + j := by omega
                  rw [harith]
                  simpa using hsan
              · right
                refine ⟨?_, hsv⟩
                intro k hk
                cases k with
                | zero => exact ⟨e, by simpa using htr⟩
                | succ k2 =>
                    have hk2 : k2 < rest.length := by simpa using Nat.lt_of_succ_lt_succ hk
                    obtain ⟨m, hm⟩ := hall k2 hk2
                    refine ⟨m, ?_⟩
                    have harith : i + (k2 + 1) = i + 1 + k2 := by omega
                    rw [harith]
                    simpa using hm

/-- Claim C7: the union sanitizer used by create independently
re-validates each member in declared order — a second classification
pass, running each member's embedded validator afresh (in create's
scope, where allowAdditionalProperties is not bound) — and produces
its result by sanitizing with the first member whose trial validation
succeeds, every earlier member having failed its trial; when no trial
succeeds the fall-through result is the undefined value. -/
theorem c7_union_sanitizer :
    ∀ (env : Env) (fuel : Nat) (ts : List Ty) (path : List String) (v sv : Value),
      sanitizeT env (fuel + 1) (.union ts) path v = some (.ok sv) →
      (∃ j, ∃ hj : j < ts.length,
        (∀ k, (hk : k < ts.length) → k < j → ∃ m,
          validateT env fuel (ts.get ⟨k, hk⟩) (path ++ [toString k]) none v =
            some (.error m)) ∧
        validateT env fuel (ts.get ⟨j, hj⟩) (path ++ [toString j]) none v =
          some (.ok ()) ∧
        sanitizeT env fuel (ts.get ⟨j, hj⟩) (path ++ [toString j]) v =
          some (.ok sv)) ∨
      ((∀ k, (hk : k < ts.length) → ∃ m,
          validateT env fuel (ts.get ⟨k, hk⟩) (path ++ [toString k]) none v =
            some (.error m)) ∧
        sv = .undefined) := by
  intro env fuel ts path v sv h
  rw [sanitizeT_step_union] at h
  have hinv := iterSanUnion_ok_inv
    (fun i subT => validateT env fuel subT (path ++ [toString i]) none v)
    (fun i subT => sanitizeT env fuel subT (path ++ [toString i]) v)
    (fun i t htr m hce => by
      have htr2 : validateT env fuel t (path ++ [toString i]) none v =
          some (.ok ()) := htr
      have hce2 : sanitizeT env fuel t (path ++ [toString i]) v =
          some (.error m) := hce
      rw [sanNone_id env fuel t (path ++ [toString i]) v htr2] at hce2
      simp at hce2)
    ts 0 sv h
  rcases hinv with ⟨j, hj, hpri, hok, hsan⟩ | ⟨hall, hsv⟩
  · left
    refine ⟨j, hj, ?_, ?_, ?_⟩
    · intro k hk hklt
      obtain ⟨m, hm⟩ := hpri k hk hklt
      exact ⟨m, by simpa using hm⟩
    · simpa using hok
    · simpa using hsan
  · right
    refine ⟨?_, hsv⟩
    intro k hk
    obtain ⟨m, hm⟩ := hall k hk
    exact ⟨m, by simpa using hm⟩

/-- Witness for C7 at union(boolean, number) on input 5: the sanitizer
selects the first member whose re-validation succeeds. -/
theorem c7_union_sanitizer_witness :
    (∃ j, ∃ hj : j < ([Ty.boolean, Ty.number] : List Ty).length,
      (∀ k, (hk : k < ([Ty.boolean, Ty.number] : List Ty).length) → k < j → ∃ m,
        validateT exEnvBN 9 (([Ty.boolean, Ty.number] : List Ty).get ⟨k, hk⟩)
          (["B"] ++ [toString k]) none (.num 5) = some (.error m)) ∧
      validateT exEnvBN 9 (([Ty.boolean, Ty.number] : List Ty).get ⟨j, hj⟩)
        (["B"] ++ [toString j]) none (.num 5) = some (.ok ()) ∧
      sanitizeT exEnvBN 9 (([Ty.boolean, Ty.number] : List Ty).get ⟨j, hj⟩)
        (["B"] ++ [toString j]) (.num 5) = some (.ok (.num 5))) ∨
    ((∀ k, (hk : k < ([Ty.boolean, Ty.number] : List Ty).length) → ∃ m,
        validateT exEnvBN 9 (([Ty.boolean, Ty.number] : List Ty).get ⟨k, hk⟩)
          (["B"] ++ [toString k]) none (.num 5) = some (.error m)) ∧
      (Value.num 5) = .undefined) :=
  c7_union_sanitizer exEnvBN 9 [.boolean, .number] ["B"] (.num 5) (.num 5)
    (by decide)

/-
Explicit-undefined fields versus absent fields.
-/

/-- Property access cannot distinguish a field explicitly bound to
undefined from an absent field (absent access yields undefined). -/
theorem jsGetD_undef_middle (pre post : List (String × Value)) (p : String)
    (hp : p ∉ (pre ++ post).map Prod.fst) (nm : String) :
    jsGetD (.obj (pre ++ (p, .undefined) :: post)) nm =
      jsGetD (.obj (pre ++ post)) nm := by
  induction pre with
  | nil =>
      simp only [List.nil_append] at hp ⊢
      simp only [jsGetD, List.find?]
      cases he : (p == nm) with
      | true =>
          have hpe : p = nm := by simpa using he
          subst hpe
          have hfind : post.find? (fun q => q.1 == p) = none := by
            rw [List.find?_eq_none]
            intro q hq hbe
            apply hp
            have : q.1 = p := by simpa using hbe
            rw [← this]
            exact List.mem_map.mpr ⟨q, hq, rfl⟩
          rw [hfind]
      | false => rfl
  | cons q pre2 ih =>
      obtain ⟨k, x⟩ := q
      have hp2 : p ∉ (pre2 ++ post).map Prod.fst := by
        intro hmem; exact hp (by simpa using Or.inr hmem)
      simp only [List.cons_append, jsGetD, List.find?]
      cases he : (k == nm) with
      | true => rfl
      | false =>
          have := ih hp2
          simpa [jsGetD] using this

/-- The strict-mode key scan ignores an allowed key wherever it occurs
in the key list. -/
theorem firstDisallowed_middle (allowed : List String) (p : String)
    (hp : allowed.contains p = true) :
    ∀ (ks1 ks2 : List String),
      firstDisallowed allowed (ks1 ++ p :: ks2) =
        firstDisallowed allowed (ks1 ++ ks2) := by
  intro ks1
  induction ks1 with
  | nil =>
      intro ks2
      simp only [List.nil_append, firstDisallowed]
      rw [if_pos hp]
  | cons k ks ih =>
      intro ks2
      simp only [List.cons_append, firstDisallowed]
      by_cases hk : allowed.contains k = true
      · rw [if_pos hk, if_pos hk]; exact ih ks2
      · rw [if_neg hk, if_neg hk]

/-- JSON.stringify omits fields bound to undefined, so the rendering
cannot distinguish them from absent fields. -/
theorem jsonStrFields_undef_middle (p : String) (d : Nat) :
    ∀ (pre post : List (String × Value)),
      jsonStrFields (pre ++ (p, .undefined) :: post) d =
        jsonStrFields (pre ++ post) d := by
  intro pre
  induction pre with
  | nil => intro post; rfl
  | cons q pre2 ih =>
      intro post
      obtain ⟨k, x⟩ := q
      simp only [List.cons_append, jsonStrFields]
      cases hx : jsonStrV x d with
      | none => exact ih post
      | some s =>
          exact congrArg
            (fun l => (jsonInd d ++ jsonQuote k ++ ": " ++ s) :: l) (ih post)

/-- The debug rendering of a value with an explicitly-undefined field
equals that of the value without the field. -/
theorem stringifyDebug_undef_middle (pre post : List (String × Value)) (p : String) :
    stringifyDebug (.obj (pre ++ (p, .undefined) :: post)) =
      stringifyDebug (.obj (pre ++ post)) := by
  unfold stringifyDebug
  simp only [jsonStrV]
  rw [jsonStrFields_undef_middle]

/-- The property-check loop depends on the input only through the
accesses of declared property names. -/
theorem iterProps_ext (get1 get2 : String → Value)
    (check : String → Ty → Value → VRes) :
    ∀ (props : List (String × Ty × Bool)),
      (∀ nm ∈ props.map (fun p => p.1), get1 nm = get2 nm) →
      iterProps get1 check props = iterProps get2 check props := by
  intro props
  induction props with
  | nil => intro _; rfl
  | cons q rest ih =>
      intro H
      obtain ⟨nm, t, req⟩ := q
      have hnm : get1 nm = get2 nm := H nm (by simp)
      simp only [iterProps, hnm]
      have hrest := ih (fun nm2 hnm2 => H nm2 (by simp [hnm2]))
      cases hres : (if req || !(isUndef (get2 nm))
          then check nm t (get2 nm) else some (.ok ())) with
      | none => rfl
      | some s => cases s with
          | ok u => exact hrest
          | error m => rfl

/-- The field-building loop depends on the input only through the
accesses of declared property names. -/
theorem iterSanProps_ext (get1 get2 : String → Option Value)
    (san : String → Ty → Value → SRes) :
    ∀ (props : List (String × Ty × Bool)),
      (∀ nm ∈ props.map (fun p => p.1), get1 nm = get2 nm) →
      iterSanProps get1 san props = iterSanProps get2 san props := by
  intro props
  induction props with
  | nil => intro _; rfl
  | cons q rest ih =>
      intro H
      obtain ⟨nm, t, req⟩ := q
      have hnm : get1 nm = get2 nm := H nm (by simp)
      have hrest := ih (fun nm2 hnm2 => H nm2 (by simp [hnm2]))
      cases hg : get2 nm with
      | none => simp only [iterSanProps, hnm, hg]
      | some pv =>
          simp only [iterSanProps, hnm, hg]
          by_cases hguard : (req || !(isUndef pv)) = true
          · rw [if_pos hguard, if_pos hguard]
            cases hs : san nm t pv with
            | none => rfl
            | some s =>
                cases s with
                | error m => rfl
                | ok sv => rw [hrest]
          · rw [if_neg hguard, if_neg hguard]
            exact hrest

/-- One step of the object validator in a scope without a bound
allowAdditionalProperties: reading the variable faults. -/
theorem validateT_step_obj_unbound (env : Env) (fuel : Nat)
    (props : List (String × Ty × Bool)) (path : List String) (v : Value)
    (hio : jsIsObject v = true) :
    validateT env (fuel + 1) (.object props) path none v = none := by
  simp [validateT, hio]

/-- Claim C9: a declared optional property explicitly set to undefined
is treated exactly like an absent property: the whole object check and
the whole object sanitizer behave identically on the two inputs (the
undeclared-key scan also cannot tell them apart when the property is
declared, and failure messages render identically because
JSON.stringify omits undefined fields), and for a single declared
optional property the check never fails on explicit undefined while
the sanitizer omits the key entirely. -/
theorem c9_optional_undefined_like_absent :
    (∀ (env : Env) (fuel : Nat) (props : List (String × Ty × Bool))
        (path : List String) (aap : Option Bool) (p : String)
        (pre post : List (String × Value)),
      p ∈ props.map (fun q => q.1) →
      p ∉ (pre ++ post).map Prod.fst →
      validateT env fuel (.object props) path aap
          (.obj (pre ++ (p, .undefined) :: post)) =
        validateT env fuel (.object props) path aap (.obj (pre ++ post))) ∧
    (∀ (env : Env) (fuel : Nat) (props : List (String × Ty × Bool))
        (path : List String) (p : String) (pre post : List (String × Value)),
      p ∉ (pre ++ post).map Prod.fst →
      sanitizeT env fuel (.object props) path
          (.obj (pre ++ (p, .undefined) :: post)) =
        sanitizeT env fuel (.object props) path (.obj (pre ++ post))) ∧
    (∀ (env : Env) (fuel : Nat) (p : String) (t : Ty) (path : List String)
        (b : Bool),
      validateT env (fuel + 1) (.object [(p, t, false)]) path (some b)
          (.obj [(p, .undefined)]) = some (.ok ()) ∧
      sanitizeT env (fuel + 1) (.object [(p, t, false)]) path
          (.obj [(p, .undefined)]) = some (.ok (.obj []))) := by
  refine ⟨?_, ?_, ?_⟩
  · intro env fuel props path aap p pre post hdecl hp
    cases fuel with
    | zero => rfl
    | succ fuel =>
        have hio1 : jsIsObject (.obj (pre ++ (p, .undefined) :: post)) = true := rfl
        have hio2 : jsIsObject (.obj (pre ++ post)) = true := rfl
        cases aap with
        | none =>
            rw [validateT_step_obj_unbound env fuel props path _ hio1]
            rw [validateT_step_obj_unbound env fuel props path _ hio2]
        | some b =>
            cases b with
            | true =>
                rw [validateT_step_obj_true env fuel props path _ hio1]
                rw [validateT_step_obj_true env fuel props path _ hio2]
                exact iterProps_ext _ _ _ props
                  (fun nm _ => jsGetD_undef_middle pre post p hp nm)
            | false =>
                have hcontains : (props.map (fun q => q.1)).contains p = true := by
                  simpa using hdecl
                have hkeys1 : jsKeys (.obj (pre ++ (p, .undefined) :: post)) =
                    pre.map Prod.fst ++ p :: post.map Prod.fst := by
                  simp [jsKeys]
                have hkeys2 : jsKeys (.obj (pre ++ post)) =
                    pre.map Prod.fst ++ post.map Prod.fst := by
                  simp [jsKeys]
                have hfd : firstDisallowed (props.map (fun q => q.1))
                    (jsKeys (.obj (pre ++ (p, .undefined) :: post))) =
                  firstDisallowed (props.map (fun q => q.1))
                    (jsKeys (.obj (pre ++ post))) := by
                  rw [hkeys1, hkeys2]
                  exact firstDisallowed_middle _ p hcontains _ _
                cases hfdr : firstDisallowed (props.map (fun q => q.1))
                    (jsKeys (.obj (pre ++ post))) with
                | some k =>
                    rw [validateT_step_obj_key env fuel props path _ k hio1
                      (by rw [hfd]; exact hfdr)]
                    rw [validateT_step_obj_key env fuel props path _ k hio2 hfdr]
                    unfold failMsg
                    rw [stringifyDebug_undef_middle]
                | none =>
                    rw [validateT_step_obj_false env fuel props path _ hio1
                      (by rw [hfd]; exact hfdr)]
                    rw [validateT_step_obj_false env fuel props path _ hio2 hfdr]
                    exact iterProps_ext _ _ _ props
                      (fun nm _ => jsGetD_undef_middle pre post p hp nm)
  · intro env fuel props path p pre post hp
    cases fuel with
    | zero => rfl
    | succ fuel =>
        rw [sanitizeT_step_obj, sanitizeT_step_obj]
        have := iterSanProps_ext
          (jsGetSan (.obj (pre ++ (p, .undefined) :: post)))
          (jsGetSan (.obj (pre ++ post)))
          (fun nm subT pv => sanitizeT env fuel subT (path ++ [nm]) pv) props
          (fun nm _ => congrArg some (jsGetD_undef_middle pre post p hp nm))
        rw [this]
  · intro env fuel p t path b
    constructor
    · cases b with
      | true =>
          rw [validateT_step_obj_true env fuel [(p, t, false)] path
            (.obj [(p, .undefined)]) rfl]
          simp [iterProps, jsGetD, List.find?, isUndef]
      | false =>
          rw [validateT_step_obj_false env fuel [(p, t, false)] path
            (.obj [(p, .undefined)]) rfl
            (by simp [jsKeys, firstDisallowed])]
          simp [iterProps, jsGetD, List.find?, isUndef]
    · rw [sanitizeT_step_obj]
      simp [iterSanProps, jsGetSan, jsGetD, List.find?, isUndef]

/-- Witness for C9 at a concrete instance: {b: undefined} behaves like
{} for the stripping example's type. -/
theorem c9_optional_undefined_witness :
    validateT exEnvS 10 (.object [("a", .number, true), ("b", .number, false)])
        ["S"] (some false) (.obj [("b", .undefined)]) =
      validateT exEnvS 10 (.object [("a", .number, true), ("b", .number, false)])
        ["S"] (some false) (.obj []) :=
  c9_optional_undefined_like_absent.1 exEnvS 10
    [("a", .number, true), ("b", .number, false)] ["S"] (some false) "b" [] []
    (by decide) (by decide)

/-
Idempotence of sanitization.  The source invariant that object
properties come from a Record (distinct keys) is captured by a
well-formedness predicate.
-/

/-- Well-formedness of a Type as the generator consumes it: every
object node's property names are distinct, as the keys of the
TypeScript Record they come from are. -/
inductive WfTy : Ty → Prop where
  | «alias» (n : String) : WfTy (.alias n)
  | any : WfTy .any
  | array (t : Ty) : WfTy t → WfTy (.array t)
  | boolean : WfTy .boolean
  | literal (l : Lit) : WfTy (.literal l)
  | null : WfTy .null
  | number : WfTy .number
  | object (props : List (String × Ty × Bool)) :
      (props.map (fun p => p.1)).Nodup →
      (∀ p ∈ props, WfTy p.2.1) → WfTy (.object props)
  | string : WfTy .string
  | undefined : WfTy .undefined
  | union (ts : List Ty) : (∀ t ∈ ts, WfTy t) → WfTy (.union ts)

/-- Well-formedness of a named-type environment. -/
def WfEnv (env : Env) : Prop := ∀ p ∈ env, WfTy p.2

/-- A resolved alias target in a well-formed environment is
well-formed. -/
theorem lookupEnv_wf (env : Env) (n : String) (t : Ty) (henv : WfEnv env)
    (h : lookupEnv env n = some t) : WfTy t := by
  unfold lookupEnv at h
  cases hf : env.find? (fun p => p.1 == n) with
  | none => rw [hf] at h; cases h
  | some p =>
      rw [hf] at h
      have hmem := List.mem_of_find?_eq_some hf
      have := henv p hmem
      cases h
      exact this

/-- Distinctness of an object node's property names. -/
theorem WfTy.object_nodup {props : List (String × Ty × Bool)}
    (h : WfTy (.object props)) : (props.map (fun p => p.1)).Nodup := by
  cases h with
  | object _ hnd _ => exact hnd

/-- Well-formedness of an object node's property types. -/
theorem WfTy.object_sub {props : List (String × Ty × Bool)}
    (h : WfTy (.object props)) {nm : String} {t : Ty} {req : Bool}
    (hmem : (nm, t, req) ∈ props) : WfTy t := by
  cases h with
  | object _ _ hsub => exact hsub (nm, t, req) hmem

/-- Well-formedness of an array node's element type. -/
theorem WfTy.array_sub {t : Ty} (h : WfTy (.array t)) : WfTy t := by
  cases h with
  | array _ ht => exact ht

/-- A successful union loop contains a successful member trial. -/
theorem iterUnion_ok_mem (trial : Nat → Ty → VRes) :
    ∀ (ts : List Ty) (i : Nat) (le : Option String),
      iterUnion trial ts i le = some (.ok ()) →
      ∃ j, ∃ hj : j < ts.length, trial (i + j) (ts.get ⟨j, hj⟩) = some (.ok ()) := by
  intro ts
  induction ts with
  | nil => intro i le h; cases le <;> simp [iterUnion] at h
  | cons t rest ih =>
      intro i le h
      simp only [iterUnion] at h
      cases htr : trial i t with
      | none => rw [htr] at h; cases h
      | some s =>
          rw [htr] at h
          cases s with
          | ok u =>
              cases u
              exact ⟨0, by simp, by simpa using htr⟩
          | error e =>
              obtain ⟨j, hj, hok⟩ := ih (i + 1) (some e) h
              refine ⟨j + 1, by simpa using Nat.succ_lt_succ hj, ?_⟩
              have harith : i + (j + 1) = i + 1 + j := by omega
              rw [harith]
              simpa using hok

/-- Element-loop idempotence, given pointwise idempotence of the
element check/sanitizer pair. -/
theorem iterSanItems_idem (f : Value → VRes) (g : Value → SRes) :
    ∀ (xs ys : List Value),
      (∀ x ∈ xs, f x = some (.ok ()) → ∀ y, g x = some (.ok y) →
        f y = some (.ok ()) ∧ g y = some (.ok y)) →
      (∀ x ∈ xs, f x = some (.ok ())) →
      iterSanItems g xs = some (.ok ys) →
      (∀ y ∈ ys, f y = some (.ok ())) ∧ iterSanItems g ys = some (.ok ys) := by
  intro xs
  induction xs with
  | nil =>
      intro ys _ _ hsan
      have hys : ys = [] := by simpa [iterSanItems] using hsan.symm
      subst hys
      exact ⟨by simp, rfl⟩
  | cons x xs ih =>
      intro ys H hok hsan
      simp only [iterSanItems] at hsan
      cases hgx : g x with
      | none => rw [hgx] at hsan; cases hsan
      | some s =>
          rw [hgx] at hsan
          cases s with
          | error m => cases hsan
          | ok y =>
              cases hrest : iterSanItems g xs with
              | none => rw [hrest] at hsan; cases hsan
              | some s2 =>
                  rw [hrest] at hsan
                  cases s2 with
                  | error m => cases hsan
                  | ok ys2 =>
                      have hys : ys = y :: ys2 := by simpa using hsan.symm
                      subst hys
                      obtain ⟨hfy, hgy⟩ :=
                        H x (by simp) (hok x (by simp)) y hgx
                      obtain ⟨ih1, ih2⟩ := ih ys2
                        (fun z hz => H z (by simp [hz]))
                        (fun z hz => hok z (by simp [hz])) hrest
                      constructor
                      · intro z hz
                        rcases List.mem_cons.mp hz with hz1 | hz2
                        · rw [hz1]; exact hfy
                        · exact ih1 z hz2
                      · simp only [iterSanItems, hgy, ih2]

/-- Head access in a rebuilt object. -/
theorem jsGetD_obj_cons_ne (nm nm2 : String) (sv : Value)
    (fs : List (String × Value)) (hne : (nm == nm2) = false) :
    jsGetD (.obj ((nm, sv) :: fs)) nm2 = jsGetD (.obj fs) nm2 := by
  simp only [jsGetD, List.find?, hne]

/-- Access outside the field list yields undefined. -/
theorem jsGetD_obj_not_mem (nm : String) (fs : List (String × Value))
    (h : nm ∉ fs.map Prod.fst) : jsGetD (.obj fs) nm = .undefined := by
  have hfind : fs.find? (fun q => q.1 == nm) = none := by
    rw [List.find?_eq_none]
    intro q hq hbe
    apply h
    have : q.1 = nm := by simpa using hbe
    rw [← this]
    exact List.mem_map.mpr ⟨q, hq, rfl⟩
  simp only [jsGetD, hfind]

/-- Field-loop idempotence: a sanitized field list, read back as an
object, passes the same property checks and is rebuilt unchanged,
given pointwise idempotence of the member check/sanitizer pairs and
distinct declared names. -/
theorem iterSanProps_idem (check : String → Ty → Value → VRes)
    (san : String → Ty → Value → SRes) :
    ∀ (props : List (String × Ty × Bool)) (v : Value)
        (fields : List (String × Value)),
      (props.map (fun p => p.1)).Nodup →
      (∀ nm t req, (nm, t, req) ∈ props → ∀ pv sv,
        check nm t pv = some (.ok ()) → san nm t pv = some (.ok sv) →
          check nm t sv = some (.ok ()) ∧ san nm t sv = some (.ok sv) ∧
          (isUndef pv = false → isUndef sv = false)) →
      (∀ nm, jsGetSan v nm = some (jsGetD v nm)) →
      iterProps (jsGetD v) check props = some (.ok ()) →
      iterSanProps (jsGetSan v) san props = some (.ok fields) →
      iterProps (jsGetD (.obj fields)) check props = some (.ok ()) ∧
      iterSanProps (jsGetSan (.obj fields)) san props = some (.ok fields) := by
  intro props
  induction props with
  | nil =>
      intro v fields _ _ _ _ hsan
      have hf : fields = [] := by simpa [iterSanProps] using hsan.symm
      subst hf
      exact ⟨rfl, rfl⟩
  | cons q rest ihp =>
      intro v fields hnd H hget hval hsan
      obtain ⟨nm, t, req⟩ := q
      have hpair :=
        List.nodup_cons.mp (hnd : (nm :: rest.map (fun p => p.1)).Nodup)
      have hnm_rest : nm ∉ rest.map (fun p => p.1) := hpair.1
      have hnd2 : (rest.map (fun p => p.1)).Nodup := hpair.2
      have Hrest : ∀ nm2 t2 req2, (nm2, t2, req2) ∈ rest → ∀ pv sv,
          check nm2 t2 pv = some (.ok ()) → san nm2 t2 pv = some (.ok sv) →
            check nm2 t2 sv = some (.ok ()) ∧ san nm2 t2 sv = some (.ok sv) ∧
            (isUndef pv = false → isUndef sv = false) :=
        fun nm2 t2 req2 hm => H nm2 t2 req2 (by simp [hm])
      simp only [iterProps] at hval
      simp only [iterSanProps, hget nm] at hsan
      by_cases hguard : (req || !(isUndef (jsGetD v nm))) = true
      · rw [if_pos hguard] at hval hsan
        cases hcheck : check nm t (jsGetD v nm) with
        | none => rw [hcheck] at hval; cases hval
        | some s =>
            rw [hcheck] at hval
            cases s with
            | error m => cases hval
            | ok u =>
                cases u
                cases hs : san nm t (jsGetD v nm) with
                | none => rw [hs] at hsan; cases hsan
                | some s2 =>
                    rw [hs] at hsan
                    cases s2 with
                    | error m => cases hsan
                    | ok sv =>
                        cases hrest : iterSanProps (jsGetSan v) san rest with
                        | none => rw [hrest] at hsan; cases hsan
                        | some s3 =>
                            rw [hrest] at hsan
                            cases s3 with
                            | error m => cases hsan
                            | ok fs =>
                                have hfields : fields = (nm, sv) :: fs := by
                                  simpa using hsan.symm
                                subst hfields
                                obtain ⟨hc2, hs2, hu2⟩ :=
                                  H nm t req (by simp) (jsGetD v nm) sv hcheck hs
                                obtain ⟨ih1, ih2⟩ :=
                                  ihp v fs hnd2 Hrest hget hval hrest
                                have hfs_names :=
                                  iterSanProps_keys_sub (jsGetSan v) san rest fs hrest
                                have hhead : jsGetD (.obj ((nm, sv) :: fs)) nm = sv := by
                                  simp [jsGetD, List.find?]
                                have hguard2 : (req || !(isUndef sv)) = true := by
                                  cases req with
                                  | true => rfl
                                  | false =>
                                      simp only [Bool.false_or] at hguard ⊢
                                      have hpvf : isUndef (jsGetD v nm) = false := by
                                        cases hiu : isUndef (jsGetD v nm) with
                                        | false => rfl
                                        | true => rw [hiu] at hguard; simp at hguard
                                      rw [hu2 hpvf]
                                      rfl
                                have hacc : ∀ nm2 ∈ rest.map (fun p => p.1),
                                    jsGetD (.obj ((nm, sv) :: fs)) nm2 =
                                      jsGetD (.obj fs) nm2 := by
                                  intro nm2 hnm2
                                  refine jsGetD_obj_cons_ne nm nm2 sv fs ?_
                                  have hne : nm ≠ nm2 := by
                                    intro he; rw [he] at hnm_rest
                                    exact hnm_rest hnm2
                                  exact beq_eq_false_iff_ne.mpr hne
                                have hext1 :
                                    iterProps (jsGetD (.obj ((nm, sv) :: fs))) check rest =
                                      iterProps (jsGetD (.obj fs)) check rest :=
                                  iterProps_ext _ _ check rest hacc
                                have hext2 :
                                    iterSanProps (jsGetSan (.obj ((nm, sv) :: fs))) san rest =
                                      iterSanProps (jsGetSan (.obj fs)) san rest :=
                                  iterSanProps_ext _ _ san rest
                                    (fun nm2 hnm2 => congrArg some (hacc nm2 hnm2))
                                constructor
                                · simp only [iterProps, hhead]
                                  rw [if_pos hguard2, hc2, hext1]
                                  exact ih1
                                · have hgets :
                                      jsGetSan (.obj ((nm, sv) :: fs)) nm = some sv := by
                                    rw [show jsGetSan (.obj ((nm, sv) :: fs)) nm =
                                      some (jsGetD (.obj ((nm, sv) :: fs)) nm) from rfl,
                                      hhead]
                                  simp only [iterSanProps, hgets]
                                  rw [if_pos hguard2, hs2, hext2, ih2]
      · rw [if_neg hguard] at hval hsan
        obtain ⟨ih1, ih2⟩ := ihp v fields hnd2 Hrest hget hval hsan
        have hfs_names :=
          iterSanProps_keys_sub (jsGetSan v) san rest fields hsan
        have hnot : nm ∉ fields.map Prod.fst :=
          fun hin => hnm_rest (hfs_names nm hin)
        have hhead : jsGetD (.obj fields) nm = .undefined :=
          jsGetD_obj_not_mem nm fields hnot
        have hreq : req = false := by
          cases hr : req with
          | false => rfl
          | true => rw [hr] at hguard; simp at hguard
        subst hreq
        have hguard2 : (false || !(isUndef (jsGetD (.obj fields) nm))) = true → False := by
          rw [hhead]
          intro hc
          simp [isUndef] at hc
        constructor
        · simp only [iterProps]
          rw [if_neg hguard2]
          exact ih1
        · have hgets : jsGetSan (.obj fields) nm =
              some (jsGetD (.obj fields) nm) := rfl
          simp only [iterSanProps, hgets]
          rw [if_neg hguard2]
          exact ih2

/-- Sanitization is idempotent below create: a value that passed the
lenient check sanitizes to a value that passes the same check and
sanitizes to itself (and sanitization maps defined values to defined
values). -/
theorem idem_main (env : Env) (henv : WfEnv env) :
    ∀ (fuel : Nat) (t : Ty) (path : List String) (v r : Value),
      WfTy t →
      validateT env fuel t path (some true) v = some (.ok ()) →
      sanitizeT env fuel t path v = some (.ok r) →
      validateT env fuel t path (some true) r = some (.ok ()) ∧
      sanitizeT env fuel t path r = some (.ok r) ∧
      (isUndef v = false → isUndef r = false) := by
  intro fuel
  induction fuel with
  | zero => intro t path v r _ h; cases h
  | succ fuel ih =>
      intro t path v r hwf h hsan
      cases t with
      | «alias» n =>
          cases hl : lookupEnv env n with
          | none => simp [validateT, hl] at h
          | some t2 =>
              rw [validateT_step_alias env fuel n path true v t2 hl] at h
              have hs2 : sanitizeT env fuel t2 [n] v = some (.ok r) := by
                rw [sanitizeT_step_alias env fuel n path v t2 hl, h] at hsan
                exact hsan
              obtain ⟨j1, j2, j3⟩ :=
                ih t2 [n] v r (lookupEnv_wf env n t2 henv hl) h hs2
              refine ⟨?_, ?_, j3⟩
              · rw [validateT_step_alias env fuel n path true r t2 hl]
                exact j1
              · rw [sanitizeT_step_alias env fuel n path r t2 hl, j1]
                exact j2
      | any =>
          have hr : v = r := by simpa [sanitizeT] using hsan
          subst hr
          exact ⟨h, by simp [sanitizeT], fun hv => hv⟩
      | array elemT =>
          cases v with
          | arr items =>
              rw [validateT_step_arr] at h
              rw [sanitizeT_step_arr] at hsan
              have hall := (iterItems_ok_iff _ items).mp h
              cases hit : iterSanItems
                  (fun x => sanitizeT env fuel elemT (path ++ ["__item__"]) x)
                  items with
              | none => rw [hit] at hsan; cases hsan
              | some s =>
                  rw [hit] at hsan
                  cases s with
                  | error m => cases hsan
                  | ok ys =>
                      have hr : r = .arr ys := by simpa using hsan.symm
                      subst hr
                      obtain ⟨hys, hsanys⟩ := iterSanItems_idem
                        (fun x => validateT env fuel elemT
                          (path ++ ["__item__"]) (some true) x)
                        (fun x => sanitizeT env fuel elemT (path ++ ["__item__"]) x)
                        items ys
                        (fun x _ hfx y hgy => by
                          obtain ⟨a, b, _⟩ := ih elemT (path ++ ["__item__"]) x y
                            hwf.array_sub hfx hgy
                          exact ⟨a, b⟩)
                        hall hit
                      refine ⟨?_, ?_, fun _ => rfl⟩
                      · rw [validateT_step_arr]
                        exact (iterItems_ok_iff _ ys).mpr hys
                      · rw [sanitizeT_step_arr, hsanys]
          | null => simp [validateT] at h
          | undefined => simp [validateT] at h
          | bool x => simp [validateT] at h
          | num x => simp [validateT] at h
          | str x => simp [validateT] at h
          | obj fs => simp [validateT] at h
      | boolean =>
          have hr : v = r := by simpa [sanitizeT] using hsan
          subst hr
          exact ⟨h, by simp [sanitizeT], fun hv => hv⟩
      | literal l =>
          have hr : v = r := by simpa [sanitizeT] using hsan
          subst hr
          exact ⟨h, by simp [sanitizeT], fun hv => hv⟩
      | null =>
          have hr : v = r := by simpa [sanitizeT] using hsan
          subst hr
          exact ⟨h, by simp [sanitizeT], fun hv => hv⟩
      | number =>
          have hr : v = r := by simpa [sanitizeT] using hsan
          subst hr
          exact ⟨h, by simp [sanitizeT], fun hv => hv⟩
      | object props =>
          by_cases hio : jsIsObject v = true
          · rw [validateT_step_obj_true env fuel props path v hio] at h
            rw [sanitizeT_step_obj] at hsan
            cases hp : iterSanProps (jsGetSan v)
                (fun nm subT pv => sanitizeT env fuel subT (path ++ [nm]) pv)
                props with
            | none => rw [hp] at hsan; cases hsan
            | some s =>
                rw [hp] at hsan
                cases s with
                | error m => cases hsan
                | ok fields =>
                    have hr : r = .obj fields := by simpa using hsan.symm
                    subst hr
                    obtain ⟨hv2, hs2⟩ := iterSanProps_idem
                      (fun nm subT pv =>
                        validateT env fuel subT (path ++ [nm]) (some true) pv)
                      (fun nm subT pv => sanitizeT env fuel subT (path ++ [nm]) pv)
                      props v fields hwf.object_nodup
                      (fun nm t2 req hmem pv sv hc hsv => by
                        obtain ⟨a, b, c⟩ := ih t2 (path ++ [nm]) pv sv
                          (hwf.object_sub hmem) hc hsv
                        exact ⟨a, b, c⟩)
                      (fun nm => jsGetSan_of_isObject v hio nm)
                      h hp
                    refine ⟨?_, ?_, fun _ => rfl⟩
                    · rw [validateT_step_obj_true env fuel props path
                        (.obj fields) rfl]
                      exact hv2
                    · rw [sanitizeT_step_obj, hs2]
          · have hio2 : jsIsObject v = false := by
              cases hb : jsIsObject v with
              | true => exact absurd hb hio
              | false => rfl
            rw [validateT_step_obj_not env fuel props path v (some true) hio2] at h
            simp at h
      | string =>
          have hr : v = r := by simpa [sanitizeT] using hsan
          subst hr
          exact ⟨h, by simp [sanitizeT], fun hv => hv⟩
      | undefined =>
          have hr : v = r := by simpa [sanitizeT] using hsan
          subst hr
          exact ⟨h, by simp [sanitizeT], fun hv => hv⟩
      | union ts =>
          rw [validateT_step_union] at h
          rw [sanitizeT_step_union] at hsan
          have hinv := iterSanUnion_ok_inv
            (fun i subT => validateT env fuel subT (path ++ [toString i]) none v)
            (fun i subT => sanitizeT env fuel subT (path ++ [toString i]) v)
            (fun i t2 htr m hce => by
              have htr2 : validateT env fuel t2 (path ++ [toString i]) none v =
                  some (.ok ()) := htr
              have hce2 : sanitizeT env fuel t2 (path ++ [toString i]) v =
                  some (.error m) := hce
              rw [sanNone_id env fuel t2 (path ++ [toString i]) v htr2] at hce2
              simp at hce2)
            ts 0 r hsan
          have hrv : r = v := by
            rcases hinv with ⟨j, hj, _, hokN, hsanN⟩ | ⟨hall, hr⟩
            · have hokN2 : validateT env fuel (ts.get ⟨j, hj⟩)
                  (path ++ [toString (0 + j)]) none v = some (.ok ()) := hokN
              have hsanN2 : sanitizeT env fuel (ts.get ⟨j, hj⟩)
                  (path ++ [toString (0 + j)]) v = some (.ok r) := hsanN
              rw [sanNone_id env fuel (ts.get ⟨j, hj⟩)
                (path ++ [toString (0 + j)]) v hokN2] at hsanN2
              simpa using hsanN2.symm
            · obtain ⟨j, hj, hokT⟩ := iterUnion_ok_mem _ ts 0 none h
              obtain ⟨m, hm⟩ := hall j hj
              have hm2 : validateT env fuel (ts.get ⟨j, hj⟩)
                  (path ++ [toString (0 + j)]) none v = some (.error m) := hm
              have := aapNone_transfer env fuel (ts.get ⟨j, hj⟩)
                (path ++ [toString (0 + j)]) v (.error m) true hm2
              have hokT2 : validateT env fuel (ts.get ⟨j, hj⟩)
                  (path ++ [toString (0 + j)]) (some true) v = some (.ok ()) := hokT
              rw [hokT2] at this
              cases this
          subst hrv
          refine ⟨?_, ?_, fun hv => hv⟩
          · rw [validateT_step_union]; exact h
          · rw [sanitizeT_step_union]; exact hsan

/-- Claim C8: sanitization is idempotent: for a (well-formed, as
Record-sourced types are) named type T and a value v that validates
with no options, create of create's result returns that result
unchanged. -/
theorem c8_sanitize_idempotent :
    ∀ (env : Env) (fuel : Nat) (name : String) (t : Ty) (v r : Value),
      WfEnv env → WfTy t →
      topValidate env fuel name t v noOptions = some (.ok (true, none)) →
      createT env fuel name t v = some (.ok r) →
      createT env fuel name t r = some (.ok r) := by
  intro env fuel name t v r henv hwf _ h
  obtain ⟨hvalT, hsanT⟩ := createT_ok_inv env fuel name t v r h
  obtain ⟨h1, h2, _⟩ := idem_main env henv fuel t [name] v r hwf hvalT hsanT
  simp [createT, topValidate, h1, h2]

/-- Well-formedness of the stripping example's type. -/
theorem wf_exStripTy : WfTy exStripTy := by
  refine WfTy.object _ (by decide) ?_
  intro p hp
  rcases List.mem_cons.mp hp with h | h
  · rw [h]; exact WfTy.number
  · have h2 : p = ("b", Ty.number, false) := by simpa using h
    rw [h2]; exact WfTy.number

/-- Well-formedness of the stripping example's environment. -/
theorem wf_exEnvS : WfEnv exEnvS := by
  intro p hp
  have h2 : p = ("S", exStripTy) := by simpa [exEnvS] using hp
  rw [h2]; exact wf_exStripTy

/-- Witness for C8: the stripping example's sanitized output is a
fixed point of create. -/
theorem c8_sanitize_idempotent_witness :
    createT exEnvS 10 "S" exStripTy (.obj [("a", .num 1), ("b", .num 2)]) =
      some (.ok (.obj [("a", .num 1), ("b", .num 2)])) :=
  c8_sanitize_idempotent exEnvS 10 "S" exStripTy
    (.obj [("a", .num 1), ("b", .num 2)]) (.obj [("a", .num 1), ("b", .num 2)])
    wf_exEnvS wf_exStripTy (by decide) (by decide)

end TsRt
